import Mathlib

/-!
Verification development for the tripgen-server place-resolution and
enrichment pipeline.  The JavaScript source (src/server.js and the image
cron job) is shallowly embedded below: pure string helpers mirror the
string operations used by the code, the global in-process cache is an
association list with JavaScript Map semantics, and every external
capability (persistent store, place text search, image search) is a
parameter of the model, so that each run of the embedded functions is a
deterministic function of those oracles.
-/

namespace TripGen

/-! ## String helpers (JavaScript semantics) -/

/-- Upper-to-lower case table for the ASCII letters. -/
def upChars : List (Char × Char) :=
  [('A', 'a'), ('B', 'b'), ('C', 'c'), ('D', 'd'), ('E', 'e'), ('F', 'f'),
   ('G', 'g'), ('H', 'h'), ('I', 'i'), ('J', 'j'), ('K', 'k'), ('L', 'l'),
   ('M', 'm'), ('N', 'n'), ('O', 'o'), ('P', 'p'), ('Q', 'q'), ('R', 'r'),
   ('S', 's'), ('T', 't'), ('U', 'u'), ('V', 'v'), ('W', 'w'), ('X', 'x'),
   ('Y', 'y'), ('Z', 'z')]

/-- ASCII lower-casing of a single character, mirroring what
JavaScript toLowerCase does on the ASCII range (the only range relevant
to the keyword checks in the source; Korean has no case). -/
def lowerChar (c : Char) : Char :=
  ((upChars.find? (fun p => p.1 == c)).map Prod.snd).getD c

/-- Whitespace test modelling the regex class \s on the characters that
occur in practice (space, tab, newline, carriage return, vertical tab,
form feed). -/
def isWs (c : Char) : Bool :=
  c == ' ' || c == '\t' || c == '\n' || c == '\r' || c == '\x0b' || c == '\x0c'

/-- List-of-characters prefix test (Boolean, executable). -/
def isPrefB : List Char → List Char → Bool
  | [], _ => true
  | _ :: _, [] => false
  | a :: s, b :: t => a == b && isPrefB s t

/-- List-of-characters substring test (Boolean, executable); models the
JavaScript String.prototype.includes on the character level. -/
def isInfB : List Char → List Char → Bool
  | [], _ => true
  | _ :: _, [] => false
  | s, c :: t => isPrefB s (c :: t) || isInfB s t

/-- JavaScript s.includes(sub) on Lean strings. -/
def strIncludes (s sub : String) : Bool :=
  isInfB sub.data s.data

/-- JavaScript s.toLowerCase() (ASCII range). -/
def jsToLower (s : String) : String :=
  String.mk (s.data.map lowerChar)

/-- Matcher for the start of the regex /\s+by\s+.*$/i : at least one
whitespace character, then b or B, then y or Y, then at least one
whitespace character (the trailing .* always matches). -/
def matchByAt (l : List Char) : Bool :=
  match l with
  | [] => false
  | c :: _ =>
    isWs c &&
      (match l.dropWhile isWs with
       | b :: y :: w :: _ =>
         (b == 'b' || b == 'B') && (y == 'y' || y == 'Y') && isWs w
       | _ => false)

/-- Removal of the leftmost match of /\s+by\s+.*$/i (everything from the
match position to the end of the string is dropped), as performed by
query.replace(/\s+by\s+.*$/i, '') in fetchNaverImage. -/
def stripByData : List Char → List Char
  | [] => []
  | c :: t => if matchByAt (c :: t) then [] else c :: stripByData t

/-- String-level wrapper of stripByData. -/
def stripBy (s : String) : String :=
  String.mk (stripByData s.data)

/-- Guard of the second tier of fetchNaverImage:
query.toLowerCase().includes(' by '). -/
def hasByPattern (s : String) : Bool :=
  isInfB " by ".data (s.data.map lowerChar)

/-! ## Fallback images (src/server.js lines 37-54) -/

/-- FALLBACK_IMAGE_URL constant. -/
def FALLBACK_IMAGE_URL : String :=
  "https://images.unsplash.com/photo-1476514525535-07fb3b4ae5f1?q=80&w=800&auto=format&fit=crop"

/-- FALLBACK_IMAGES.food. -/
def FALLBACK_IMAGE_FOOD : String :=
  "https://images.unsplash.com/photo-1504674900247-0877df9cc836?q=80&w=800&auto=format&fit=crop"

/-- FALLBACK_IMAGES.nature. -/
def FALLBACK_IMAGE_NATURE : String :=
  "https://images.unsplash.com/photo-1441974231531-c6227db76b6e?q=80&w=800&auto=format&fit=crop"

/-- FALLBACK_IMAGES.city. -/
def FALLBACK_IMAGE_CITY : String :=
  "https://images.unsplash.com/photo-1449824913935-59a10b8d2000?q=80&w=800&auto=format&fit=crop"

/-- FALLBACK_IMAGES.culture (same URL as hotel in the source). -/
def FALLBACK_IMAGE_CULTURE : String :=
  "https://images.unsplash.com/photo-1566073771259-6a8506099945?q=80&w=800&auto=format&fit=crop"

/-- FALLBACK_IMAGES.hotel. -/
def FALLBACK_IMAGE_HOTEL : String :=
  "https://images.unsplash.com/photo-1566073771259-6a8506099945?q=80&w=800&auto=format&fit=crop"

/-- getFallbackImage(types): category-keyed generic image table.
FALLBACK_IMAGES.default does not exist in the source object, so the
empty case falls through to FALLBACK_IMAGE_URL. -/
def getFallbackImage (types : List String) : String :=
  if types.isEmpty then FALLBACK_IMAGE_URL
  else if types.any (fun t =>
    ["restaurant", "food", "cafe", "bar", "bakery", "meal_takeaway"].contains t) then
    FALLBACK_IMAGE_FOOD
  else if types.any (fun t =>
    ["park", "campground", "natural_feature", "amusement_park"].contains t) then
    FALLBACK_IMAGE_NATURE
  else if types.any (fun t =>
    ["museum", "art_gallery", "church", "place_of_worship", "library", "university"].contains t) then
    FALLBACK_IMAGE_CULTURE
  else if types.any (fun t => ["lodging", "hotel", "guest_house"].contains t) then
    FALLBACK_IMAGE_HOTEL
  else FALLBACK_IMAGE_CITY

/-- getFallbackImage applied to a possibly-undefined types value (the
JavaScript default parameter [] applies when undefined). -/
def getFallbackImageOpt (types : Option (List String)) : String :=
  getFallbackImage (types.getD [])

/-! ## Image search: fetchNaverImage (src/server.js lines 87-177)

The inner trySearch closure (lines 109-142) performs one Naver API call
with candidate filtering and returns a URL or null; its behaviour is a
function of its query string alone, so it is abstracted as an oracle
passed to the tier logic.  The tier logic itself (lines 144-176) is
embedded structurally.  Runs return both the result and the exact list
of queries handed to trySearch, in order. -/

/-- Keyword list of the final retry tier (line 166). -/
def travelKeywords : List String := ["여행 사진", "관광 명소", "풍경 사진", "호텔"]

/-- Third-tier loop: try the original query combined with each travel
keyword in turn, stopping at the first success (lines 165-173). -/
def kwSearchLoop (try0 : String → Option String) (q : String) :
    List String → Option String × List String
  | [] => (none, [])
  | kw :: rest =>
    let q2 := q ++ " " ++ kw
    match try0 q2 with
    | some r => (some r, [q2])
    | none =>
      let p := kwSearchLoop try0 q rest
      (p.1, q2 :: p.2)

/-- fetchNaverImage(query, retryWithKeywords): tiered image search.
Returns (result, attempted trySearch queries in order). -/
def fetchNaverImageRun (try0 : String → Option String) (retryWithKeywords : Bool)
    (q : String) : Option String × List String :=
  match try0 q with
  | some r => (some r, [q])
  | none =>
    let afterBy : Option String × List String :=
      if hasByPattern q then
        let sq := stripBy q
        match try0 sq with
        | some r => (some r, [sq])
        | none =>
          match try0 (sq ++ " hotel") with
          | some r => (some r, [sq, sq ++ " hotel"])
          | none => (none, [sq, sq ++ " hotel"])
      else (none, [])
    match afterBy with
    | (some r, ats) => (some r, q :: ats)
    | (none, ats) =>
      if retryWithKeywords then
        let p := kwSearchLoop try0 q travelKeywords
        (p.1, q :: ats ++ p.2)
      else (none, q :: ats)

/-- Reference first-success scan used to state the tier-order theorem:
try the queries of a list in order, stop at the first success, return
the result and the attempted queries. -/
def firstHitRun (try0 : String → Option String) : List String → Option String × List String
  | [] => (none, [])
  | x :: rest =>
    match try0 x with
    | some r => (some r, [x])
    | none =>
      let p := firstHitRun try0 rest
      (p.1, x :: p.2)

/-- The full ordered query sequence of the tiers of fetchNaverImage
(with retryWithKeywords = true, the only mode used by the source). -/
def tierQueries (q : String) : List String :=
  [q]
    ++ (if hasByPattern q then [stripBy q, stripBy q ++ " hotel"] else [])
    ++ travelKeywords.map (fun kw => q ++ " " ++ kw)

/-! ## Data model

places_cache row (schema: migration creating places_cache plus the
search_keywords migration; photo_reference is used by the code and the
maintenance scripts as an existing column).  REAL ratings are modelled
as rationals; the created_at timestamp carries no model value but its
column name is kept for the field-name view. -/

/-- One row of the places_cache table, as returned by select(*). -/
structure DbRow where
  place_id : String
  place_name : String
  search_keywords : Option String
  rating : Option Rat
  rating_count : Option Nat
  google_maps_uri : Option String
  website_uri : Option String
  photo_url : Option String
  photo_reference : Option String
  location : Option (Rat × Rat)
  types : Option (List String)
deriving DecidableEq, Repr

/-- One Google Places text-search candidate, restricted to the fields
named in the X-Goog-FieldMask of fetchPlaceDetails. -/
structure GPlace where
  id : String
  displayName : Option String
  rating : Option Rat
  userRatingCount : Option Nat
  googleMapsUri : Option String
  websiteUri : Option String
  location : Option (Rat × Rat)
  types : Option (List String)
  formattedAddress : Option String
deriving DecidableEq, Repr

/-- The placeData object literal built in the external-search branch of
fetchPlaceDetails (lines 343-354); photoReference is always null there. -/
structure FreshData where
  place_id : String
  place_name : String
  rating : Option Rat
  ratingCount : Option Nat
  googleMapsUri : Option String
  websiteUri : Option String
  photoUrl : String
  location : Option (Rat × Rat)
  types : Option (List String)
deriving DecidableEq, Repr

/-- Resolved values as they live in the in-process cache and are handed
to callers.  Each constructor corresponds to one object shape produced
by fetchPlaceDetails or stored by it:
structuralV = the check-in/lodging short-circuit literal (line 182-186),
dbRaw = the raw snake_case row stored on a DB hit (line 203),
dbConverted = the camelCase conversion returned on a DB hit (lines 261-272),
fresh = the placeData literal of the external-search branch,
fallbackV = the name-only fallback literal (lines 300-303, 378-381). -/
inductive PlaceVal where
  | structuralV (place_name : String) (photoUrl : String)
  | dbRaw (r : DbRow)
  | dbConverted (r : DbRow)
  | fresh (d : FreshData)
  | fallbackV (place_name : String) (photoUrl : String)
deriving DecidableEq, Repr

/-- JavaScript property values, for the field-level view of resolved
records. -/
inductive JsVal where
  | s (v : String)
  | num (v : Rat)
  | nat (v : Nat)
  | loc (v : Rat × Rat)
  | strs (v : List String)
  | jnull
deriving DecidableEq, Repr

/-- Encoding of a nullable string column as a property value. -/
def encS : Option String → JsVal
  | some v => .s v
  | none => .jnull

/-- Encoding of a nullable numeric column. -/
def encN : Option Rat → JsVal
  | some v => .num v
  | none => .jnull

/-- Encoding of a nullable integer column. -/
def encI : Option Nat → JsVal
  | some v => .nat v
  | none => .jnull

/-- Encoding of a nullable location column. -/
def encL : Option (Rat × Rat) → JsVal
  | some v => .loc v
  | none => .jnull

/-- Encoding of a nullable types column. -/
def encT : Option (List String) → JsVal
  | some v => .strs v
  | none => .jnull

/-- Property names of a raw places_cache row object. -/
def dbRowFieldNames : List String :=
  ["place_id", "place_name", "search_keywords", "rating", "rating_count",
   "google_maps_uri", "website_uri", "photo_url", "photo_reference",
   "location", "types", "created_at"]

/-- Property names of the camelCase object returned on a DB hit
(lines 261-272) and of the placeData literal (lines 343-354). -/
def convertedFieldNames : List String :=
  ["place_id", "place_name", "rating", "ratingCount", "googleMapsUri",
   "websiteUri", "photoUrl", "photoReference", "location", "types"]

/-- Property names of each resolved-value shape. -/
def PlaceVal.fieldNames : PlaceVal → List String
  | .structuralV _ _ => ["place_name", "type", "photoUrl"]
  | .dbRaw _ => dbRowFieldNames
  | .dbConverted _ => convertedFieldNames
  | .fresh _ => convertedFieldNames
  | .fallbackV _ _ => ["place_name", "photoUrl"]

/-- Property read on a raw row object. -/
def DbRow.getRaw (r : DbRow) (k : String) : Option JsVal :=
  if k = "place_id" then some (.s r.place_id)
  else if k = "place_name" then some (.s r.place_name)
  else if k = "search_keywords" then some (encS r.search_keywords)
  else if k = "rating" then some (encN r.rating)
  else if k = "rating_count" then some (encI r.rating_count)
  else if k = "google_maps_uri" then some (encS r.google_maps_uri)
  else if k = "website_uri" then some (encS r.website_uri)
  else if k = "photo_url" then some (encS r.photo_url)
  else if k = "photo_reference" then some (encS r.photo_reference)
  else if k = "location" then some (encL r.location)
  else if k = "types" then some (encT r.types)
  else if k = "created_at" then some .jnull
  else none

/-- Property read on the camelCase conversion of a row (lines 261-272). -/
def DbRow.getConverted (r : DbRow) (k : String) : Option JsVal :=
  if k = "place_id" then some (.s r.place_id)
  else if k = "place_name" then some (.s r.place_name)
  else if k = "rating" then some (encN r.rating)
  else if k = "ratingCount" then some (encI r.rating_count)
  else if k = "googleMapsUri" then some (encS r.google_maps_uri)
  else if k = "websiteUri" then some (encS r.website_uri)
  else if k = "photoUrl" then some (encS r.photo_url)
  else if k = "photoReference" then some (encS r.photo_reference)
  else if k = "location" then some (encL r.location)
  else if k = "types" then some (encT r.types)
  else none

/-- Property read on the placeData literal. -/
def FreshData.getF (d : FreshData) (k : String) : Option JsVal :=
  if k = "place_id" then some (.s d.place_id)
  else if k = "place_name" then some (.s d.place_name)
  else if k = "rating" then some (encN d.rating)
  else if k = "ratingCount" then some (encI d.ratingCount)
  else if k = "googleMapsUri" then some (encS d.googleMapsUri)
  else if k = "websiteUri" then some (encS d.websiteUri)
  else if k = "photoUrl" then some (.s d.photoUrl)
  else if k = "photoReference" then some .jnull
  else if k = "location" then some (encL d.location)
  else if k = "types" then some (encT d.types)
  else none

/-- Property read on any resolved-value shape. -/
def PlaceVal.getField : PlaceVal → String → Option JsVal
  | .structuralV n p, k =>
    if k = "place_name" then some (.s n)
    else if k = "type" then some (.s "숙소")
    else if k = "photoUrl" then some (.s p)
    else none
  | .dbRaw r, k => r.getRaw k
  | .dbConverted r, k => r.getConverted k
  | .fresh d, k => d.getF k
  | .fallbackV n p, k =>
    if k = "place_name" then some (.s n)
    else if k = "photoUrl" then some (.s p)
    else none

/-- The place_name property every shape carries (details.place_name). -/
def PlaceVal.place_nameOf : PlaceVal → String
  | .structuralV n _ => n
  | .dbRaw r => r.place_name
  | .dbConverted r => r.place_name
  | .fresh d => d.place_name
  | .fallbackV n _ => n

/-- The external identifier of a resolved value (details.place_id);
none when the underlying object has no place_id property. -/
def PlaceVal.identifierOf : PlaceVal → Option String
  | .structuralV _ _ => none
  | .dbRaw r => some r.place_id
  | .dbConverted r => some r.place_id
  | .fresh d => some d.place_id
  | .fallbackV _ _ => none

/-- The value of reading details.types in JavaScript (a camelCase-free
column name, so present on raw rows as well). -/
def PlaceVal.typesOf : PlaceVal → Option (List String)
  | .structuralV _ _ => none
  | .dbRaw r => r.types
  | .dbConverted r => r.types
  | .fresh d => d.types
  | .fallbackV _ _ => none

/-- The value of reading details.websiteUri in JavaScript.  A raw row
object has website_uri but no websiteUri property, so the read yields
undefined there. -/
def PlaceVal.websiteUriOf : PlaceVal → Option String
  | .structuralV _ _ => none
  | .dbRaw _ => none
  | .dbConverted r => r.website_uri
  | .fresh d => d.websiteUri
  | .fallbackV _ _ => none

/-- The value of reading details.googleMapsUri in JavaScript (undefined
on raw rows, which only carry google_maps_uri). -/
def PlaceVal.googleMapsUriOf : PlaceVal → Option String
  | .structuralV _ _ => none
  | .dbRaw _ => none
  | .dbConverted r => r.google_maps_uri
  | .fresh d => d.googleMapsUri
  | .fallbackV _ _ => none

/-! ## The global in-process cache (src/server.js lines 56-66)

JavaScript Map semantics: set replaces the value of an existing key in
place and appends a new key; size is the number of keys. -/

/-- Association-list model of a JavaScript Map with string keys. -/
abbrev JsMap (α : Type) : Type := List (String × α)

/-- Map.get (as an Option). -/
def mget {α : Type} : JsMap α → String → Option α
  | [], _ => none
  | p :: t, k => if p.1 = k then some p.2 else mget t k

/-- Map.has. -/
def mhas {α : Type} (m : JsMap α) (k : String) : Bool :=
  (mget m k).isSome

/-- Map.set: replace the value of an existing key in place, append a
new key at the end. -/
def mset {α : Type} : JsMap α → String → α → JsMap α
  | [], k, v => [(k, v)]
  | p :: t, k, v => if p.1 = k then (k, v) :: t else p :: mset t k v

/-- Map.size. -/
def msize {α : Type} (m : JsMap α) : Nat := m.length

/-- MAX_CACHE_SIZE constant (line 58). -/
def MAX_CACHE_SIZE : Nat := 1000

/-- addToCache (lines 60-66): clear the whole map when it is full, then
set. -/
def addToCache {α : Type} (m : JsMap α) (k : String) (v : α) : JsMap α :=
  if MAX_CACHE_SIZE ≤ msize m then mset ([] : JsMap α) k v else mset m k v

/-! ## External world and event log -/

/-- External calls issued by the resolver, in order. -/
inductive ExtEvent where
  | dbRead (q : String)
  | gTextSearch (q : String)
  | nImageSearch (q : String)
  | gPhotoSearch (q : String)
deriving DecidableEq, Repr

/-- Writes issued against the persistent places_cache store. -/
inductive PersistOp where
  | upsertPlace (r : DbRow)
  | updatePhoto (place_id : String) (photo_url : Option String)
      (photo_reference : Option String)
deriving DecidableEq, Repr

/-- The external capabilities fetchPlaceDetails consumes, as oracles:
db is the places_cache read (exact name or fuzzy keyword match, one
query), gSearch the Google text search on the combined query, nTry the
trySearch closure of fetchNaverImage, gPhotos the photo-only Google
query used while healing. -/
structure World where
  db : String → Option DbRow
  gSearch : String → Option GPlace
  nTry : String → Option String
  gPhotos : String → Option String

/-- Pending cache writes of one fetchPlaceDetails run; setOp is the
unconditional Map.set of the DB-hit branch (line 203), addOp the
capacity-checked addToCache of the external-search branch (line 373). -/
inductive CacheOp where
  | setOp (k : String) (v : PlaceVal)
  | addOp (k : String) (v : PlaceVal)
deriving DecidableEq, Repr

/-- Application of one pending cache write. -/
def applyOp (m : JsMap PlaceVal) : CacheOp → JsMap PlaceVal
  | .setOp k v => mset m k v
  | .addOp k v => addToCache m k v

/-- Application of a list of pending cache writes, in order. -/
def applyOps (m : JsMap PlaceVal) (ops : List CacheOp) : JsMap PlaceVal :=
  ops.foldl applyOp m

/-- JavaScript truthiness of a nullable string (null, undefined and the
empty string are falsy). -/
def optStrTruthy : Option String → Bool
  | some s => !(s == "")
  | none => false

/-- JavaScript a || b for a nullable string a and a string b. -/
def jsOrStr (a : Option String) (b : String) : String :=
  match a with
  | some s => if s == "" then b else s
  | none => b

/-- The structural short-circuit test of fetchPlaceDetails (line 181):
the raw name contains a check-in, lodging or return marker. -/
def isStructuralName (n : String) : Bool :=
  strIncludes n "체크인" || strIncludes n "숙소" || strIncludes n "복귀"

/-- Self-healing of a cached row with a missing photo (lines 205-258):
one Naver image pass on the raw name, then a photo-only Google search;
on success the row is updated in memory and a fire-and-forget DB update
is issued.  A Naver success resets photo_reference to null, exactly as
the source does. -/
def healRow (w : World) (placeName : String) (r : DbRow) :
    DbRow × List ExtEvent × List PersistOp :=
  if optStrTruthy r.photo_url then (r, [], [])
  else
    let np := fetchNaverImageRun w.nTry true placeName
    let nEvents := np.2.map ExtEvent.nImageSearch
    match np.1 with
    | some url =>
      ({ r with photo_url := some url, photo_reference := none },
       nEvents, [.updatePhoto r.place_id (some url) none])
    | none =>
      match w.gPhotos placeName with
      | some ref =>
        let url := "/api/proxy/google-photo/" ++ ref
        ({ r with photo_url := some url, photo_reference := some ref },
         nEvents ++ [.gPhotoSearch placeName],
         [.updatePhoto r.place_id (some url) (some ref)])
      | none => (r, nEvents ++ [.gPhotoSearch placeName], [])

/-- Category-derived image search suffix (lines 312-319). -/
def getSearchSuffix (types : List String) : String :=
  if types.any (fun t =>
    ["restaurant", "food", "cafe", "bar", "bakery", "meal_takeaway"].contains t) then
    " 맛집 음식 사진"
  else if types.any (fun t =>
    ["tourist_attraction", "point_of_interest", "landmark", "museum"].contains t) then
    " 관광명소 사진"
  else if types.any (fun t => ["park", "natural_feature"].contains t) then
    " 공원 풍경 사진"
  else if types.any (fun t => ["lodging", "hotel", "guest_house"].contains t) then
    " 호텔 외관 사진"
  else if types.any (fun t => ["shopping_mall", "store"].contains t) then
    " 쇼핑몰 내부 사진"
  else " 관광 사진"

/-- Test of /^[A-Za-z\s\-']+$/ on a name (line 310). -/
def isEnglishName (s : String) : Bool :=
  !(s == "") && s.data.all (fun c =>
    (('A' ≤ c && c ≤ 'Z') || ('a' ≤ c && c ≤ 'z') || isWs c || c == '-' || c == '\x27'))

/-- The part of fetchPlaceDetails after the structural short-circuit and
the in-process cache check: DB lookup, then external search.  Returns
the value handed to the caller, the pending cache writes, the external
events and the persistent writes, in order. -/
def fetchAfterMemMiss (w : World) (placeName cityContext : String) :
    PlaceVal × List CacheOp × List ExtEvent × List PersistOp :=
  match w.db placeName with
  | some r =>
    let h := healRow w placeName r
    (.dbConverted h.1, [.setOp placeName (.dbRaw h.1)],
     .dbRead placeName :: h.2.1, h.2.2)
  | none =>
    let q := if cityContext == "" then placeName else cityContext ++ " " ++ placeName
    match w.gSearch q with
    | none =>
      (.fallbackV placeName (getFallbackImage []),
       [], [.dbRead placeName, .gTextSearch q], [])
    | some p =>
      let searchName := jsOrStr p.displayName placeName
      let suffix := getSearchSuffix (p.types.getD [])
      let searchQuery :=
        if isEnglishName searchName && !(cityContext == "") then
          cityContext ++ " " ++ searchName ++ suffix
        else if isEnglishName searchName then
          searchName ++ suffix
        else if !(cityContext == "") then
          cityContext ++ " " ++ searchName ++ suffix
        else searchName ++ suffix
      let np := fetchNaverImageRun w.nTry true searchQuery
      let photoUrl :=
        match np.1 with
        | some u => u
        | none => getFallbackImageOpt p.types
      let d : FreshData :=
        { place_id := p.id, place_name := searchName, rating := p.rating,
          ratingCount := p.userRatingCount, googleMapsUri := p.googleMapsUri,
          websiteUri := p.websiteUri, photoUrl := photoUrl,
          location := p.location, types := p.types }
      let newKeywords := String.intercalate "|"
        (([placeName, searchName] ++ p.formattedAddress.toList).filter
          (fun s => !(s == "")))
      let row : DbRow :=
        { place_id := d.place_id, place_name := d.place_name,
          search_keywords := some newKeywords, rating := d.rating,
          rating_count := d.ratingCount, google_maps_uri := d.googleMapsUri,
          website_uri := d.websiteUri, photo_url := some d.photoUrl,
          photo_reference := none, location := d.location, types := d.types }
      (.fresh d, [.addOp placeName (.fresh d)],
       [.dbRead placeName, .gTextSearch q] ++ np.2.map ExtEvent.nImageSearch,
       [.upsertPlace row])

/-- fetchPlaceDetails called directly (lines 180-383): structural
short-circuit, in-process cache check, then the miss path with its own
cache writes applied to the shared cache. -/
def fetchPlaceDetailsRun (w : World) (cache : JsMap PlaceVal)
    (placeName cityContext : String) :
    PlaceVal × JsMap PlaceVal × List ExtEvent × List PersistOp :=
  if isStructuralName placeName then
    (.structuralV placeName (getFallbackImage ["lodging", "hotel"]), cache, [], [])
  else
    match mget cache placeName with
    | some v => (v, cache, [], [])
    | none =>
      let f := fetchAfterMemMiss w placeName cityContext
      (f.1, applyOps cache f.2.1, f.2.2.1, f.2.2.2)

/-- The cache interaction of the enrichment loops (generate-trip lines
798-805, modify-trip lines 975-981): on a miss the pending promise of
fetchPlaceDetails is stored through addToCache before the call
completes, and the call's own cache writes land afterwards; on a miss
that ends in the fallback the stored promise is never removed. -/
def resolveViaLoop (w : World) (cache : JsMap PlaceVal)
    (cityContext placeName : String) :
    PlaceVal × JsMap PlaceVal × List ExtEvent × List PersistOp :=
  match mget cache placeName with
  | some v => (v, cache, [], [])
  | none =>
    if isStructuralName placeName then
      let v : PlaceVal := .structuralV placeName (getFallbackImage ["lodging", "hotel"])
      (v, addToCache cache placeName v, [], [])
    else
      let f := fetchAfterMemMiss w placeName cityContext
      (f.1, applyOps (addToCache cache placeName f.1) f.2.1, f.2.2.1, f.2.2.2)

/-! ## Itinerary post-processing (generate-trip, src/server.js lines 753-833)

Activities are processed here in their list order; this sequential
schedule is the one the modify-trip handler always uses and is an
admissible interleaving of the generate-trip Promise.all fan-out, whose
per-activity data flow is independent of the interleaving. -/

/-- One draft activity as produced by the generation step. -/
structure Activity where
  time : String
  place_name : String
  type : String
  activity_description : Option String
  is_booking_required : Bool
deriving DecidableEq, Repr

/-- Dedup exemption (lines 761, 950): the name contains a transit or
lodging marker. -/
def isDedupExempt (n : String) : Bool :=
  strIncludes n "이동" || strIncludes n "숙소"

/-- Enrichment skip (lines 793, 963): transit without a lodging marker. -/
def isTransitOnly (n : String) : Bool :=
  strIncludes n "이동" && !(strIncludes n "숙소")

/-- The deduplication pass of one day (lines 759-769): structural
activities are kept unconditionally, others only when their raw name
was not seen before anywhere in the trip. -/
def dedupActs (seen : List String) : List Activity → List Activity × List String
  | [] => ([], seen)
  | a :: rest =>
    if isDedupExempt a.place_name then
      let p := dedupActs seen rest
      (a :: p.1, p.2)
    else if seen.contains a.place_name then dedupActs seen rest
    else
      let p := dedupActs (seen ++ [a.place_name]) rest
      (a :: p.1, p.2)

/-- Beauty-service keyword list (line 772). -/
def beautyKeywords : List String :=
  ["왁싱", "뷰티", "네일", "미용", "스파", "마사지", "피부", "에스테틱", "헤어"]

/-- The four description words that trigger the description rewrite
(line 781). -/
def mealTriggerWords : List String := ["카페", "식사", "베이커리", "빵"]

/-- True when the lower-cased name or description of a draft activity
contains a beauty-service keyword. -/
def beautyMatches (a : Activity) : Bool :=
  beautyKeywords.any (fun kw =>
    strIncludes (jsToLower a.place_name) kw
      || strIncludes (jsToLower (a.activity_description.getD "")) kw)

/-- True when the lower-cased description contains one of the rewrite
trigger words. -/
def descHasMealWord (a : Activity) : Bool :=
  mealTriggerWords.any (fun kw =>
    strIncludes (jsToLower (a.activity_description.getD "")) kw)

/-- The category sanity correction (lines 771-786): a meal-typed
activity with a beauty keyword is retyped to sightseeing, and its
description is replaced by a fixed template when it mentions food. -/
def beautyFix (a : Activity) : Activity :=
  if a.type == "식사" && beautyMatches a then
    let a2 := { a with type := "관광" }
    if descHasMealWord a then
      { a2 with activity_description := some (a.place_name ++ "에서 휴식 및 뷰티 체험을 즐깁니다.") }
    else a2
  else a

/-- The isPark test of the booking-URL derivation (lines 810, 986):
details.types is truthy and contains park or natural_feature. -/
def parkTagged (d : PlaceVal) : Bool :=
  match d.typesOf with
  | some ts => ts.contains "park" || ts.contains "natural_feature"
  | none => false

/-- Booking URL derivation (lines 809-816 and 985-991): parks and
natural features never get one; otherwise, when booking is required,
the first truthy of details.websiteUri, details.googleMapsUri and a
constructed web-search URL. -/
def finalBookingUrl (destination : String) (a : Activity) (d : PlaceVal) :
    Option String :=
  let isPark := parkTagged d
  if !isPark && a.is_booking_required then
    if optStrTruthy d.websiteUriOf then d.websiteUriOf
    else if optStrTruthy d.googleMapsUriOf then d.googleMapsUriOf
    else some ("https://www.google.com/search?q=" ++ destination ++ "+"
      ++ a.place_name ++ "+예약")
  else none

/-- One post-processed activity: the plain shape of the transit skip
path, or the merged object {...activity, ...details, booking_url,
place_name} of the enrichment path. -/
inductive OutAct where
  | plain (a : Activity)
  | merged (a : Activity) (d : PlaceVal) (booking_url : Option String)
      (place_name : String)
deriving DecidableEq, Repr

/-- The display name of a post-processed activity. -/
def OutAct.displayedName : OutAct → String
  | .plain a => a.place_name
  | .merged _ _ _ n => n

/-- The raw (draft) place name of a post-processed activity. -/
def OutAct.draftName : OutAct → String
  | .plain a => a.place_name
  | .merged a _ _ _ => a.place_name

/-- The booking_url property of a post-processed activity (the transit
skip path never assigns one). -/
def OutAct.bookingUrlOf : OutAct → Option String
  | .plain _ => none
  | .merged _ _ b _ => b

/-- The is_booking_required flag of a post-processed activity. -/
def OutAct.bookingRequiredOf : OutAct → Bool
  | .plain a => a.is_booking_required
  | .merged a _ _ _ => a.is_booking_required

/-- The resolved category tags of a post-processed activity. -/
def OutAct.typesOf : OutAct → Option (List String)
  | .plain _ => none
  | .merged _ d _ _ => d.typesOf

/-- Enrichment of one activity (loop body, lines 791-827): transit is
passed through; otherwise the resolver runs through the shared cache
and the merged object is assembled. -/
def enrichOne (w : World) (destination : String) (cache : JsMap PlaceVal)
    (a : Activity) : OutAct × JsMap PlaceVal :=
  if isTransitOnly a.place_name then (.plain a, cache)
  else
    let r := resolveViaLoop w cache destination a.place_name
    (.merged a r.1 (finalBookingUrl destination a r.1)
      (jsOrStr (some r.1.place_nameOf) a.place_name), r.2.1)

/-- Enrichment of the surviving activities of one day, in list order,
threading the shared in-process cache. -/
def enrichAll (w : World) (destination : String) :
    JsMap PlaceVal → List Activity → List OutAct × JsMap PlaceVal
  | cache, [] => ([], cache)
  | cache, a :: rest =>
    let e := enrichOne w destination cache a
    let p := enrichAll w destination e.2 rest
    (e.1 :: p.1, p.2)

/-- One day of post-processing: dedup against the trip-wide seen set,
beauty correction, then enrichment of each surviving activity. -/
def processDay (w : World) (destination : String) (cache : JsMap PlaceVal)
    (seen : List String) (acts : List Activity) :
    List OutAct × JsMap PlaceVal × List String :=
  let dd := dedupActs seen acts
  let fixed := dd.1.map beautyFix
  let f := enrichAll w destination cache fixed
  (f.1, f.2, dd.2)

/-- All days of one request, threading the cache and the trip-wide seen
set (lines 753-850). -/
def processDays (w : World) (destination : String) (cache : JsMap PlaceVal)
    (seen : List String) : List (List Activity) → List (List OutAct) × JsMap PlaceVal
  | [] => ([], cache)
  | d :: rest =>
    let p := processDay w destination cache seen d
    let q := processDays w destination p.2.1 p.2.2 rest
    (p.1 :: q.1, q.2)

/-- One generate-trip request: the seen set starts empty, the
in-process cache is the global one and persists across requests. -/
def processItinerary (w : World) (destination : String) (cache : JsMap PlaceVal)
    (days : List (List Activity)) : List (List OutAct) × JsMap PlaceVal :=
  processDays w destination cache [] days

/-! ## Image Health Sweep (jobs/image_cron.js, runImageHealthCheck)

The cron job selects every places_cache row with a non-null photo_url,
probes each URL with a HEAD request, and on failure overwrites the
photo_url with the first link of a fresh one-result Naver search on the
place name — without probing the replacement.  The probe and the
one-result search are oracles. -/

/-- The effect of one sweep on one row.  Rows with a null photo_url are
not selected and stay untouched. -/
def sweepRow (probe : String → Bool) (search1 : String → Option String)
    (r : DbRow) : DbRow :=
  match r.photo_url with
  | none => r
  | some u =>
    if probe u then r
    else
      match search1 r.place_name with
      | some u2 => { r with photo_url := some u2 }
      | none => r

/-- One full run of runImageHealthCheck over the table. -/
def runImageHealthCheckModel (probe : String → Bool)
    (search1 : String → Option String) (rows : List DbRow) : List DbRow :=
  rows.map (sweepRow probe search1)

/-! ## Concurrency trace model (C5)

Single-threaded cooperative interleaving: a resolve action is the
synchronous segment of the enrichment loop for one raw name (cache
check; on a miss, start of fetchPlaceDetails up to its first await plus
addToCache of the pending promise), and a complete action is the
settling of one started fetch.  The cache component tracks which keys
the in-process cache holds, inflight the multiset of names with a
started-but-unsettled fetch, and calls the log of started external
resolutions. -/

/-- State of the trace model. -/
structure TState where
  cache : List String
  inflight : List String
  calls : List String
  cleared : Bool
deriving DecidableEq, Repr

/-- The empty starting state (fresh process). -/
def TState.init : TState :=
  { cache := [], inflight := [], calls := [], cleared := false }

/-- Actions of the trace model. -/
inductive TAct where
  | resolve (n : String)
  | complete (n : String)
deriving DecidableEq, Repr

/-- One step.  resolve n attaches when n is cached, and otherwise
starts a fetch and stores the pending promise through addToCache,
whose clear-on-full behaviour is recorded in the sticky cleared flag;
complete n settles one pending fetch (the cache entry, now a settled
promise, stays). -/
def tstep (s : TState) : TAct → TState
  | .resolve n =>
    if s.cache.contains n then s
    else if MAX_CACHE_SIZE ≤ s.cache.length then
      { cache := [n], inflight := s.inflight ++ [n], calls := s.calls ++ [n],
        cleared := true }
    else
      { cache := s.cache ++ [n], inflight := s.inflight ++ [n],
        calls := s.calls ++ [n], cleared := s.cleared }
  | .complete n =>
    { s with inflight := s.inflight.erase n }

/-- Run of a list of actions. -/
def runTrace (s : TState) (acts : List TAct) : TState :=
  acts.foldl tstep s

/-! ## Concrete instances used by counterexamples and witnesses -/

/-- A world in which every lookup and search misses. -/
def allMissWorld : World :=
  { db := fun _ => none, gSearch := fun _ => none,
    nTry := fun _ => none, gPhotos := fun _ => none }

/-- A warm persistent-cache row with an image (used for the warm-cache
theorems). -/
def warmRow : DbRow :=
  { place_id := "ChIJwarm", place_name := "장소B",
    search_keywords := some "장소B", rating := none, rating_count := some 120,
    google_maps_uri := some "https://maps.google.com/?cid=7",
    website_uri := some "https://bplace.example",
    photo_url := some "https://img.example/b.jpg", photo_reference := none,
    location := none, types := some ["restaurant"] }

/-- A world whose persistent cache holds warmRow under its name. -/
def warmWorld : World :=
  { db := fun n => if n = "장소B" then some warmRow else none,
    gSearch := fun _ => none, nTry := fun _ => none, gPhotos := fun _ => none }

/-- Cached row returned for both raw names of the duplicate-name
counterexample: the fuzzy search_keywords lookup resolves the old and
the official name of the same tower to one record. -/
def towerRow : DbRow :=
  { place_id := "ChIJtower", place_name := "N서울타워",
    search_keywords := some "남산타워|N서울타워", rating := none,
    rating_count := none, google_maps_uri := none, website_uri := none,
    photo_url := some "https://img.example/nseoul.jpg", photo_reference := none,
    location := none, types := some ["tourist_attraction"] }

/-- World of the duplicate-name counterexample. -/
def towerWorld : World :=
  { db := fun n => if n = "남산타워" || n = "N서울타워" then some towerRow else none,
    gSearch := fun _ => none, nTry := fun _ => none, gPhotos := fun _ => none }

/-- Draft itinerary of the duplicate-name counterexample: two distinct
raw names that resolve to the same place. -/
def towerActs : List Activity :=
  [{ time := "10:00", place_name := "남산타워", type := "관광",
     activity_description := none, is_booking_required := false },
   { time := "14:00", place_name := "N서울타워", type := "관광",
     activity_description := none, is_booking_required := false }]

/-- Cached row of the booking-priority counterexample: the resolved
place has an official website. -/
def gyojaRow : DbRow :=
  { place_id := "ChIJgyoja", place_name := "명동교자",
    search_keywords := none, rating := none, rating_count := none,
    google_maps_uri := some "https://maps.google.com/?cid=1",
    website_uri := some "https://www.mdkj.co.kr",
    photo_url := some "https://img.example/gyoja.jpg", photo_reference := none,
    location := none, types := some ["restaurant"] }

/-- World of the booking-priority counterexample. -/
def gyojaWorld : World :=
  { db := fun n => if n = "명동교자" then some gyojaRow else none,
    gSearch := fun _ => none, nTry := fun _ => none, gPhotos := fun _ => none }

/-- Booking-required activity of the booking-priority counterexample. -/
def gyojaAct : Activity :=
  { time := "12:00", place_name := "명동교자", type := "식사",
    activity_description := none, is_booking_required := true }

/-- First request of the booking-priority counterexample (cold global
cache). -/
def gyojaRun1 : List (List OutAct) × JsMap PlaceVal :=
  processItinerary gyojaWorld "서울" [] [[gyojaAct]]

/-- Second request for the same itinerary, served from the global cache
left behind by the first one. -/
def gyojaRun2 : List (List OutAct) × JsMap PlaceVal :=
  processItinerary gyojaWorld "서울" gyojaRun1.2 [[gyojaAct]]

/-- Meal-typed beauty activity whose name contains a meal trigger word. -/
def nailCafeAct : Activity :=
  { time := "11:00", place_name := "네일카페", type := "식사",
    activity_description := some "카페에서 아침 식사", is_booking_required := false }

/-- Row of the sweep counterexample: cached entry whose image URL is
dead. -/
def deadImgRow : DbRow :=
  { place_id := "P1", place_name := "장소A", search_keywords := none,
    rating := none, rating_count := none, google_maps_uri := none,
    website_uri := none, photo_url := some "https://dead.example/a.jpg",
    photo_reference := none, location := none, types := none }

/-- Probe of the sweep counterexample: every URL is unreachable. -/
def deadProbe : String → Bool := fun _ => false

/-- One-result search of the sweep counterexample: always returns the
same (unreachable) link. -/
def deadSearch : String → Option String := fun _ => some "https://alsodead.example/b.jpg"

/-- Names of the cache-growth family: p, pa, paa, ... (pairwise
distinct, never structural). -/
def growName (i : Nat) : String :=
  String.mk ('p' :: List.replicate i 'a')

/-- 1001 distinct raw names. -/
def growNames : List String :=
  (List.range 1001).map growName

/-- Row served for every name of the cache-growth run. -/
def growRow (n : String) : DbRow :=
  { place_id := n, place_name := n, search_keywords := none, rating := none,
    rating_count := none, google_maps_uri := none, website_uri := none,
    photo_url := some "https://img.example/x.jpg", photo_reference := none,
    location := none, types := none }

/-- World of the cache-growth run: every name is a persistent-cache hit. -/
def growWorld : World :=
  { db := fun n => some (growRow n), gSearch := fun _ => none,
    nTry := fun _ => none, gPhotos := fun _ => none }

/-- The in-process cache after resolving the 1001 names in sequence. -/
def growCacheAfter : JsMap PlaceVal :=
  growNames.foldl (fun c n => (fetchPlaceDetailsRun growWorld c n "").2.1) []

/-- Filler names of the eviction trace: m, ma, maa, ... -/
def fillName (i : Nat) : String :=
  String.mk ('m' :: List.replicate i 'a')

/-- 999 distinct filler names. -/
def fillNames : List String :=
  (List.range 999).map fillName

/-- The thousandth distinct name, whose insertion finds the cache full
and clears it. -/
def overflowName : String := fillName 999

/-- Eviction trace: start a resolution for n, interleave 999 fresh
resolutions of other names to fill the cache, then one more whose
addToCache clears the full cache and evicts the pending promise of n,
then resolve n again while the first fetch is still in flight. -/
def evictTrace : List TAct :=
  TAct.resolve "n"
    :: (fillNames.map TAct.resolve ++ [TAct.resolve overflowName, TAct.resolve "n"])

/-- The draft place names of the non-structural post-processed
activities of a whole trip, in order. -/
def nonExemptDraftNames (outs : List (List OutAct)) : List String :=
  outs.flatten.filterMap (fun o =>
    if isDedupExempt o.draftName then none else some o.draftName)

/-- The display names of the non-structural post-processed activities
of a whole trip, in order. -/
def nonExemptDisplayNames (outs : List (List OutAct)) : List String :=
  outs.flatten.filterMap (fun o =>
    if isDedupExempt o.draftName then none else some o.displayedName)

/-- The draft names of the non-structural activities of one activity
list. -/
def draftNamesOf (l : List Activity) : List String :=
  l.filterMap (fun a =>
    if isDedupExempt a.place_name then none else some a.place_name)

/-- The draft names of the non-structural post-processed activities of
one day. -/
def outDraftNamesOf (l : List OutAct) : List String :=
  l.filterMap (fun o =>
    if isDedupExempt o.draftName then none else some o.draftName)

/-! ## Basic lemmas about the cache model -/

theorem mget_mset_self {α : Type} (m : JsMap α) (k : String) (v : α) :
    mget (mset m k v) k = some v := by
  induction m with
  | nil => simp [mset, mget]
  | cons p t ih =>
    by_cases h : p.1 = k
    · simp [mset, h, mget]
    · simp [mset, h, mget, ih]

theorem mget_mset_ne {α : Type} (m : JsMap α) (k k2 : String) (v : α)
    (h : k2 ≠ k) : mget (mset m k v) k2 = mget m k2 := by
  induction m with
  | nil => simp [mset, mget, h, Ne.symm h]
  | cons p t ih =>
    by_cases hp : p.1 = k
    · subst hp
      simp [mset, mget, h, Ne.symm h]
    · by_cases hq : p.1 = k2
      · simp [mset, hp, mget, hq, h]
      · simp [mset, hp, mget, hq, ih]

theorem msize_mset_le {α : Type} (m : JsMap α) (k : String) (v : α) :
    msize (mset m k v) ≤ msize m + 1 := by
  induction m with
  | nil => simp [mset, msize]
  | cons p t ih =>
    by_cases h : p.1 = k
    · simp [mset, h, msize]
    · simp only [mset, h, if_false, msize, List.length_cons]
      exact Nat.succ_le_succ ih

theorem msize_mset_of_none {α : Type} (m : JsMap α) (k : String) (v : α)
    (h : mget m k = none) : msize (mset m k v) = msize m + 1 := by
  induction m with
  | nil => simp [mset, msize]
  | cons p t ih =>
    by_cases hp : p.1 = k
    · simp [mget, hp] at h
    · simp only [mget, hp, if_false] at h
      simp only [mset, hp, if_false, msize, List.length_cons]
      exact congrArg Nat.succ (ih h)

theorem msize_addToCache_le {α : Type} (m : JsMap α) (k : String) (v : α) :
    msize (addToCache m k v) ≤ MAX_CACHE_SIZE := by
  unfold addToCache
  by_cases h : MAX_CACHE_SIZE ≤ msize m
  · simp only [h, if_true]
    have : msize (mset ([] : JsMap α) k v) ≤ 1 := msize_mset_le [] k v
    exact le_trans this (by norm_num [MAX_CACHE_SIZE])
  · simp only [h, if_false]
    have h2 : msize m + 1 ≤ MAX_CACHE_SIZE := Nat.succ_le_of_lt (Nat.lt_of_not_le h)
    exact le_trans (msize_mset_le m k v) h2

theorem mget_addToCache_self {α : Type} (m : JsMap α) (k : String) (v : α) :
    mget (addToCache m k v) k = some v := by
  unfold addToCache
  by_cases h : MAX_CACHE_SIZE ≤ msize m
  · simp only [h, if_true, mget_mset_self]
  · simp only [h, if_false, mget_mset_self]

/-! ## Substring lemmas -/

theorem isPrefB_mem : ∀ (s l : List Char), isPrefB s l = true →
    ∀ c ∈ s, c ∈ l := by
  intro s
  induction s with
  | nil => intro l _ c hc; cases hc
  | cons a t ih =>
    intro l h c hc
    cases l with
    | nil => simp [isPrefB] at h
    | cons b u =>
      simp only [isPrefB, Bool.and_eq_true, beq_iff_eq] at h
      rcases List.mem_cons.mp hc with h1 | h1
      · subst h1
        exact List.mem_cons.mpr (Or.inl h.1)
      · exact List.mem_cons.mpr (Or.inr (ih u h.2 c h1))

theorem isInfB_mem : ∀ (s l : List Char), isInfB s l = true →
    ∀ c ∈ s, c ∈ l := by
  intro s l
  induction l with
  | nil =>
    intro h c hc
    cases s with
    | nil => cases hc
    | cons a t => simp [isInfB] at h
  | cons b u ih =>
    intro h c hc
    cases s with
    | nil => cases hc
    | cons a t =>
      simp only [isInfB, Bool.or_eq_true] at h
      rcases h with h | h
      · exact isPrefB_mem (a :: t) (b :: u) h c hc
      · exact List.mem_cons.mpr (Or.inr (ih h c hc))

/-! ## Claim C3: warm-cache idempotence -/

/-- C3: for every raw place name already present in the persistent
cache, calling fetchPlaceDetails twice in sequence returns results with
identical identifier and identical display name, and the second call
performs zero external calls of any kind. -/
theorem claim_c3_warm_idempotent (w : World) (cache : JsMap PlaceVal)
    (name ctx : String) (r : DbRow) (hdb : w.db name = some r) :
    (fetchPlaceDetailsRun w cache name ctx).1.identifierOf
        = (fetchPlaceDetailsRun w (fetchPlaceDetailsRun w cache name ctx).2.1 name ctx).1.identifierOf
    ∧ (fetchPlaceDetailsRun w cache name ctx).1.place_nameOf
        = (fetchPlaceDetailsRun w (fetchPlaceDetailsRun w cache name ctx).2.1 name ctx).1.place_nameOf
    ∧ (fetchPlaceDetailsRun w (fetchPlaceDetailsRun w cache name ctx).2.1 name ctx).2.2.1 = [] := by
  by_cases hs : isStructuralName name = true
  · simp [fetchPlaceDetailsRun, hs]
  · have hs2 : isStructuralName name = false := Bool.eq_false_iff.mpr hs
    cases hm : mget cache name with
    | some v =>
      simp [fetchPlaceDetailsRun, hs2, hm]
    | none =>
      simp only [fetchPlaceDetailsRun, hs2, Bool.false_eq_true, if_false, hm,
        fetchAfterMemMiss, hdb, applyOps, applyOp, List.foldl_cons, List.foldl_nil,
        mget_mset_self]
      simp [PlaceVal.identifierOf, PlaceVal.place_nameOf]

/-- Witness for C3 at a concrete warm cache. -/
theorem claim_c3_witness :
    (fetchPlaceDetailsRun warmWorld [] "장소B" "").1.identifierOf
        = (fetchPlaceDetailsRun warmWorld (fetchPlaceDetailsRun warmWorld [] "장소B" "").2.1 "장소B" "").1.identifierOf
    ∧ (fetchPlaceDetailsRun warmWorld [] "장소B" "").1.place_nameOf
        = (fetchPlaceDetailsRun warmWorld (fetchPlaceDetailsRun warmWorld [] "장소B" "").2.1 "장소B" "").1.place_nameOf
    ∧ (fetchPlaceDetailsRun warmWorld (fetchPlaceDetailsRun warmWorld [] "장소B" "").2.1 "장소B" "").2.2.1 = [] :=
  claim_c3_warm_idempotent warmWorld [] "장소B" "" warmRow (by decide)

/-! ## Claim C10: snake_case cache value vs camelCase return value -/

/-- C10: a resolve served by the persistent cache returns the camelCase
conversion but stores the raw snake_case row in the in-process cache,
so a second resolve (served from the in-process cache) returns a record
with different field names, while place_id and place_name agree. -/
theorem claim_c10_field_mismatch (w : World) (cache : JsMap PlaceVal)
    (name ctx : String) (r : DbRow) (hs : isStructuralName name = false)
    (hm : mget cache name = none) (hdb : w.db name = some r) :
    (fetchPlaceDetailsRun w cache name ctx).1 = .dbConverted (healRow w name r).1
    ∧ (fetchPlaceDetailsRun w (fetchPlaceDetailsRun w cache name ctx).2.1 name ctx).1
        = .dbRaw (healRow w name r).1
    ∧ mget (fetchPlaceDetailsRun w cache name ctx).2.1 name
        = some (.dbRaw (healRow w name r).1)
    ∧ ("photoUrl" ∈ (fetchPlaceDetailsRun w cache name ctx).1.fieldNames
        ∧ "ratingCount" ∈ (fetchPlaceDetailsRun w cache name ctx).1.fieldNames
        ∧ "googleMapsUri" ∈ (fetchPlaceDetailsRun w cache name ctx).1.fieldNames
        ∧ "photo_url" ∉ (fetchPlaceDetailsRun w cache name ctx).1.fieldNames)
    ∧ ("photo_url" ∈ (fetchPlaceDetailsRun w (fetchPlaceDetailsRun w cache name ctx).2.1 name ctx).1.fieldNames
        ∧ "rating_count" ∈ (fetchPlaceDetailsRun w (fetchPlaceDetailsRun w cache name ctx).2.1 name ctx).1.fieldNames
        ∧ "google_maps_uri" ∈ (fetchPlaceDetailsRun w (fetchPlaceDetailsRun w cache name ctx).2.1 name ctx).1.fieldNames
        ∧ "photoUrl" ∉ (fetchPlaceDetailsRun w (fetchPlaceDetailsRun w cache name ctx).2.1 name ctx).1.fieldNames)
    ∧ (fetchPlaceDetailsRun w cache name ctx).1.getField "place_id"
        = (fetchPlaceDetailsRun w (fetchPlaceDetailsRun w cache name ctx).2.1 name ctx).1.getField "place_id"
    ∧ (fetchPlaceDetailsRun w cache name ctx).1.getField "place_name"
        = (fetchPlaceDetailsRun w (fetchPlaceDetailsRun w cache name ctx).2.1 name ctx).1.getField "place_name" := by
  have h1 : fetchPlaceDetailsRun w cache name ctx
      = (.dbConverted (healRow w name r).1,
         mset cache name (.dbRaw (healRow w name r).1),
         .dbRead name :: (healRow w name r).2.1, (healRow w name r).2.2) := by
    simp [fetchPlaceDetailsRun, hs, hm, fetchAfterMemMiss, hdb, applyOps, applyOp]
  have h2 : fetchPlaceDetailsRun w (fetchPlaceDetailsRun w cache name ctx).2.1 name ctx
      = (.dbRaw (healRow w name r).1, (fetchPlaceDetailsRun w cache name ctx).2.1, [], []) := by
    rw [h1]
    simp [fetchPlaceDetailsRun, hs, mget_mset_self]
  refine ⟨by rw [h1], by rw [h2], by rw [h1]; exact mget_mset_self cache name _, ?_, ?_, ?_, ?_⟩
  · rw [h1]
    exact ⟨(by decide : "photoUrl" ∈ convertedFieldNames),
           (by decide : "ratingCount" ∈ convertedFieldNames),
           (by decide : "googleMapsUri" ∈ convertedFieldNames),
           (by decide : "photo_url" ∉ convertedFieldNames)⟩
  · rw [h2]
    exact ⟨(by decide : "photo_url" ∈ dbRowFieldNames),
           (by decide : "rating_count" ∈ dbRowFieldNames),
           (by decide : "google_maps_uri" ∈ dbRowFieldNames),
           (by decide : "photoUrl" ∉ dbRowFieldNames)⟩
  · rw [h2, h1]; rfl
  · rw [h2, h1]; rfl

/-- Witness for C10 at a concrete warm cache. -/
theorem claim_c10_witness :
    (fetchPlaceDetailsRun warmWorld [] "장소B" "").1 = .dbConverted warmRow
    ∧ (fetchPlaceDetailsRun warmWorld (fetchPlaceDetailsRun warmWorld [] "장소B" "").2.1 "장소B" "").1
        = .dbRaw warmRow := by
  have h := claim_c10_field_mismatch warmWorld [] "장소B" "" warmRow (by decide) (by decide) (by decide)
  have hh : (healRow warmWorld "장소B" warmRow).1 = warmRow := by decide
  exact ⟨by rw [h.1, hh], by rw [h.2.1, hh]⟩

/-! ## Claim C9: unbounded growth through persistent-cache hits -/

theorem isInfB_false_of_not_mem (s l : List Char) (c : Char) (hc : c ∈ s)
    (hl : c ∉ l) : isInfB s l = false := by
  cases h : isInfB s l
  · rfl
  · exact absurd (isInfB_mem s l h c hc) hl

theorem char_not_mem_growName (c : Char) (h1 : c ≠ 'p') (h2 : c ≠ 'a')
    (i : Nat) : c ∉ 'p' :: List.replicate i 'a' := by
  intro h
  rcases List.mem_cons.mp h with h3 | h3
  · exact h1 h3
  · exact h2 (List.eq_of_mem_replicate h3)

theorem growName_not_structural (i : Nat) : isStructuralName (growName i) = false := by
  unfold isStructuralName strIncludes growName
  have e1 : isInfB "체크인".data (String.mk ('p' :: List.replicate i 'a')).data = false :=
    isInfB_false_of_not_mem _ _ '체' (by decide)
      (char_not_mem_growName '체' (by decide) (by decide) i)
  have e2 : isInfB "숙소".data (String.mk ('p' :: List.replicate i 'a')).data = false :=
    isInfB_false_of_not_mem _ _ '숙' (by decide)
      (char_not_mem_growName '숙' (by decide) (by decide) i)
  have e3 : isInfB "복귀".data (String.mk ('p' :: List.replicate i 'a')).data = false :=
    isInfB_false_of_not_mem _ _ '복' (by decide)
      (char_not_mem_growName '복' (by decide) (by decide) i)
  simp [e1, e2, e3]

theorem growName_inj : Function.Injective growName := by
  intro i j h
  have h2 : ('p' :: List.replicate i 'a').length = ('p' :: List.replicate j 'a').length :=
    congrArg (fun s : String => s.data.length) h
  simpa using h2

theorem grow_fold (names : List String) (c : JsMap PlaceVal)
    (hns : ∀ n ∈ names, isStructuralName n = false)
    (hfresh : ∀ n ∈ names, mget c n = none)
    (hnd : names.Nodup) :
    msize (names.foldl (fun c2 n => (fetchPlaceDetailsRun growWorld c2 n "").2.1) c)
      = msize c + names.length := by
  induction names generalizing c with
  | nil => simp
  | cons n rest ih =>
    have hn := hns n (List.mem_cons_self n rest)
    have hf := hfresh n (List.mem_cons_self n rest)
    have hstep : (fetchPlaceDetailsRun growWorld c n "").2.1
        = mset c n (.dbRaw (growRow n)) := by
      simp [fetchPlaceDetailsRun, hn, hf, fetchAfterMemMiss, growWorld, healRow,
        optStrTruthy, growRow, applyOps, applyOp]
    have hnotmem : n ∉ rest := (List.nodup_cons.mp hnd).1
    have hrest := ih (mset c n (.dbRaw (growRow n)))
      (fun m hm => hns m (List.mem_cons_of_mem n hm))
      (fun m hm => by
        rw [mget_mset_ne c n m _ (fun he => hnotmem (he ▸ hm))]
        exact hfresh m (List.mem_cons_of_mem n hm))
      (List.nodup_cons.mp hnd).2
    calc msize (List.foldl (fun c2 n2 => (fetchPlaceDetailsRun growWorld c2 n2 "").2.1) c (n :: rest))
        = msize (List.foldl (fun c2 n2 => (fetchPlaceDetailsRun growWorld c2 n2 "").2.1)
            (mset c n (.dbRaw (growRow n))) rest) := by rw [List.foldl_cons, hstep]
      _ = msize (mset c n (.dbRaw (growRow n))) + rest.length := hrest
      _ = msize c + 1 + rest.length := by rw [msize_mset_of_none c n _ hf]
      _ = msize c + (n :: rest).length := by simp; omega

/-- C9: the clear-on-full bound of the in-process cache is enforced for
every insertion through addToCache, while a persistent-cache hit
inserts with an unconditional Map.set and no capacity check, so a run
of 1001 distinct warm-cache resolutions grows the cache to 1001 entries,
beyond its declared maximum of 1000. -/
theorem claim_c9_growth_beyond_bound :
    (∀ (m : JsMap PlaceVal) (k : String) (v : PlaceVal),
        msize (addToCache m k v) ≤ MAX_CACHE_SIZE)
    ∧ msize growCacheAfter = 1001
    ∧ MAX_CACHE_SIZE < msize growCacheAfter := by
  have hlen : growNames.length = 1001 := by
    simp [growNames]
  have hsize : msize growCacheAfter = 1001 := by
    have h := grow_fold growNames []
      (fun n hn => by
        rcases List.mem_map.mp hn with ⟨i, _, hi⟩
        exact hi ▸ growName_not_structural i)
      (fun n _ => rfl)
      (List.Nodup.map growName_inj (List.nodup_range 1001))
    rw [growCacheAfter, h, hlen]
    rfl
  exact ⟨fun m k v => msize_addToCache_le m k v,
         hsize, by rw [hsize]; norm_num [MAX_CACHE_SIZE]⟩

/-! ## Claim C2: the health sweep never re-validates the replacement -/

/-- C2 counterexample: a cached entry with an unreachable imageUrl is
overwritten by one sweep run with a different URL that is itself
unreachable, because the replacement returned by the fresh search is
never probed. -/
theorem claim_c2_counterexample :
    runImageHealthCheckModel deadProbe deadSearch [deadImgRow]
      = [{ deadImgRow with photo_url := some "https://alsodead.example/b.jpg" }]
    ∧ deadProbe "https://alsodead.example/b.jpg" = false
    ∧ some "https://alsodead.example/b.jpg" ≠ deadImgRow.photo_url := by
  refine ⟨rfl, rfl, ?_⟩
  decide

/-- C2 amended: one sweep run touches only the photo_url column; an
entry changes only when its old URL probed unreachable, and then the
new value is exactly the first result of a fresh image search on the
place name (taken as-is, not re-probed); when the probe succeeds, or
the search returns nothing, or the entry has no URL, it is unchanged. -/
theorem sweepRow_of_none (probe : String → Bool) (search1 : String → Option String)
    (r : DbRow) (h : r.photo_url = none) : sweepRow probe search1 r = r := by
  unfold sweepRow
  rw [h]

theorem sweepRow_of_reachable (probe : String → Bool) (search1 : String → Option String)
    (r : DbRow) (u : String) (h : r.photo_url = some u) (hp : probe u = true) :
    sweepRow probe search1 r = r := by
  unfold sweepRow
  rw [h]
  simp [hp]

theorem sweepRow_of_fix (probe : String → Bool) (search1 : String → Option String)
    (r : DbRow) (u u2 : String) (h : r.photo_url = some u) (hp : probe u = false)
    (hs : search1 r.place_name = some u2) :
    sweepRow probe search1 r = { r with photo_url := some u2 } := by
  unfold sweepRow
  rw [h, hs]
  simp [hp]

theorem sweepRow_of_no_replacement (probe : String → Bool) (search1 : String → Option String)
    (r : DbRow) (u : String) (h : r.photo_url = some u) (hp : probe u = false)
    (hs : search1 r.place_name = none) :
    sweepRow probe search1 r = r := by
  unfold sweepRow
  rw [h, hs]
  simp [hp]

theorem claim_c2_amended (probe : String → Bool) (search1 : String → Option String)
    (rows : List DbRow) (i : Nat) (r r2 : DbRow)
    (h1 : rows[i]? = some r)
    (h2 : (runImageHealthCheckModel probe search1 rows)[i]? = some r2) :
    (r2.place_id = r.place_id ∧ r2.place_name = r.place_name
      ∧ r2.search_keywords = r.search_keywords ∧ r2.rating = r.rating
      ∧ r2.rating_count = r.rating_count ∧ r2.google_maps_uri = r.google_maps_uri
      ∧ r2.website_uri = r.website_uri ∧ r2.photo_reference = r.photo_reference
      ∧ r2.location = r.location ∧ r2.types = r.types)
    ∧ (r2 ≠ r → ∃ u u2, r.photo_url = some u ∧ probe u = false
        ∧ search1 r.place_name = some u2 ∧ r2.photo_url = some u2)
    ∧ (∀ u, r.photo_url = some u → probe u = true → r2 = r)
    ∧ (∀ u u2, r.photo_url = some u → probe u = false →
        search1 r.place_name = some u2 → r2.photo_url = some u2)
    ∧ (∀ u, r.photo_url = some u → probe u = false →
        search1 r.place_name = none → r2 = r)
    ∧ (r.photo_url = none → r2 = r) := by
  have hr2 : sweepRow probe search1 r = r2 := by
    rw [runImageHealthCheckModel, List.getElem?_map, h1] at h2
    simpa using h2
  cases hu : r.photo_url with
  | none =>
    have he : r2 = r := by rw [← hr2, sweepRow_of_none probe search1 r hu]
    subst he
    exact ⟨⟨rfl, rfl, rfl, rfl, rfl, rfl, rfl, rfl, rfl, rfl⟩,
      fun hne => absurd rfl hne, fun u h => Option.noConfusion h,
      fun u u2 h => Option.noConfusion h, fun u h => Option.noConfusion h,
      fun _ => rfl⟩
  | some u =>
    cases hp : probe u with
    | true =>
      have he : r2 = r := by rw [← hr2, sweepRow_of_reachable probe search1 r u hu hp]
      subst he
      refine ⟨⟨rfl, rfl, rfl, rfl, rfl, rfl, rfl, rfl, rfl, rfl⟩,
        fun hne => absurd rfl hne, fun _ _ _ => rfl, ?_,
        fun _ _ _ _ => rfl, fun h => Option.noConfusion h⟩
      intro u1 u2 h hf _
      cases h
      rw [hp] at hf
      exact Bool.noConfusion hf
    | false =>
      cases hs : search1 r.place_name with
      | none =>
        have he : r2 = r := by
          rw [← hr2, sweepRow_of_no_replacement probe search1 r u hu hp hs]
        subst he
        exact ⟨⟨rfl, rfl, rfl, rfl, rfl, rfl, rfl, rfl, rfl, rfl⟩,
          fun hne => absurd rfl hne, fun _ _ _ => rfl,
          fun u1 u3 _ _ hs2 => Option.noConfusion hs2, fun _ _ _ _ => rfl,
          fun h => Option.noConfusion h⟩
      | some u2 =>
        have he : r2 = { r with photo_url := some u2 } := by
          rw [← hr2, sweepRow_of_fix probe search1 r u u2 hu hp hs]
        subst he
        refine ⟨⟨rfl, rfl, rfl, rfl, rfl, rfl, rfl, rfl, rfl, rfl⟩,
          fun _ => ⟨u, u2, rfl, hp, rfl, rfl⟩, ?_, ?_,
          fun u1 _ _ hs2 => Option.noConfusion hs2, fun h => Option.noConfusion h⟩
        · intro u1 h ht
          cases h
          rw [hp] at ht
          exact Bool.noConfusion ht
        · intro u1 u3 h _ hs2
          cases h
          cases hs2
          rfl

/-- Witness for the amended C2 at the concrete dead-image row. -/
theorem claim_c2_witness :
    ({ deadImgRow with photo_url := some "https://alsodead.example/b.jpg" } : DbRow).photo_url
      = some "https://alsodead.example/b.jpg" :=
  (claim_c2_amended deadProbe deadSearch [deadImgRow] 0 deadImgRow
      { deadImgRow with photo_url := some "https://alsodead.example/b.jpg" } rfl rfl).2.2.2.1
    "https://dead.example/a.jpg" "https://alsodead.example/b.jpg" rfl rfl rfl

/-! ## Claim C7: beauty-service category correction -/

/-- C7 counterexample: a meal-typed activity named 네일카페 with the
description 카페에서 아침 식사 is recategorized, but its rewritten
description is the fixed template built from the place name and still
contains the meal term 카페, so the description does not lose all
meal-specific terms. -/
theorem claim_c7_counterexample :
    (beautyFix nailCafeAct).type = "관광"
    ∧ (beautyFix nailCafeAct).activity_description
        = some "네일카페에서 휴식 및 뷰티 체험을 즐깁니다."
    ∧ mealTriggerWords.any (fun kw =>
        strIncludes (jsToLower ((beautyFix nailCafeAct).activity_description.getD "")) kw)
        = true := by
  refine ⟨?_, ?_, ?_⟩ <;> decide

/-- C7 amended: a meal-typed activity with a beauty keyword in its name
or description is recategorized to 관광 and, when its description
contains a meal trigger word, the description is replaced by the fixed
template built from the place name (which still contains a meal term
whenever the name does); activities that do not match keep their
category and description. -/
theorem claim_c7_amended (a : Activity) :
    (a.type = "식사" → beautyMatches a = true →
      ((beautyFix a).type = "관광"
        ∧ (beautyFix a).place_name = a.place_name
        ∧ (descHasMealWord a = true →
            (beautyFix a).activity_description
              = some (a.place_name ++ "에서 휴식 및 뷰티 체험을 즐깁니다."))
        ∧ (descHasMealWord a = false →
            (beautyFix a).activity_description = a.activity_description)))
    ∧ (¬(a.type = "식사" ∧ beautyMatches a = true) → beautyFix a = a) := by
  constructor
  · intro ht hb
    have hc : (a.type == "식사" && beautyMatches a) = true := by
      rw [ht, hb]
      rfl
    by_cases hd : descHasMealWord a = true
    · refine ⟨?_, ?_, fun _ => ?_, fun hdf => ?_⟩
      · simp [beautyFix, hc, hd]
      · simp [beautyFix, hc, hd]
      · simp [beautyFix, hc, hd]
      · rw [hd] at hdf
        exact Bool.noConfusion hdf
    · have hd2 : descHasMealWord a = false := Bool.eq_false_iff.mpr hd
      refine ⟨?_, ?_, fun hdt => ?_, fun _ => ?_⟩
      · simp [beautyFix, hc, hd2]
      · simp [beautyFix, hc, hd2]
      · rw [hd2] at hdt
        exact Bool.noConfusion hdt
      · simp [beautyFix, hc, hd2]
  · intro hn
    have hc : (a.type == "식사" && beautyMatches a) = false := by
      cases ht : (a.type == "식사") with
      | false => rfl
      | true =>
        cases hb : beautyMatches a with
        | false => rfl
        | true => exact absurd ⟨beq_iff_eq.mp ht, hb⟩ hn
    simp [beautyFix, hc]

/-- Witness for the amended C7 at the concrete beauty activity. -/
theorem claim_c7_witness :
    (beautyFix nailCafeAct).type = "관광"
    ∧ (beautyFix nailCafeAct).place_name = "네일카페" := by
  have h := (claim_c7_amended nailCafeAct).1 rfl (by decide)
  exact ⟨h.1, h.2.1⟩

/-! ## Claim C1: the lookup-miss fallback is cached by the loop -/

/-- C1 counterexample: after a total miss, resolving through the
enrichment loop returns the name-only fallback and does not persist it,
but the pending promise stored by the loop keeps the fallback in the
in-process cache, so a second resolve returns the cached fallback with
zero external calls instead of retrying the resolution chain. -/
theorem claim_c1_counterexample :
    (resolveViaLoop allMissWorld [] "서울" "맛집투어").1
      = .fallbackV "맛집투어" FALLBACK_IMAGE_URL
    ∧ (resolveViaLoop allMissWorld [] "서울" "맛집투어").2.2.2 = []
    ∧ mget (resolveViaLoop allMissWorld [] "서울" "맛집투어").2.1 "맛집투어"
        = some (.fallbackV "맛집투어" FALLBACK_IMAGE_URL)
    ∧ (resolveViaLoop allMissWorld
          (resolveViaLoop allMissWorld [] "서울" "맛집투어").2.1 "서울" "맛집투어").1
        = .fallbackV "맛집투어" FALLBACK_IMAGE_URL
    ∧ (resolveViaLoop allMissWorld
          (resolveViaLoop allMissWorld [] "서울" "맛집투어").2.1 "서울" "맛집투어").2.2.1
        = [] := by
  refine ⟨?_, ?_, ?_, ?_, ?_⟩ <;> decide

/-- C1 amended: on a total miss fetchPlaceDetails itself returns the
name-only fallback, persists nothing and leaves the cache unchanged;
but the enrichment loop stores the pending promise in the in-process
cache before the result is known and never removes it, so the fallback
stays cached and a subsequent resolve returns it with zero external
calls instead of retrying the chain. -/
theorem claim_c1_amended (w : World) (cache : JsMap PlaceVal) (dest name : String)
    (hs : isStructuralName name = false)
    (hm : mget cache name = none)
    (hdb : w.db name = none)
    (hg : w.gSearch (if dest == "" then name else dest ++ " " ++ name) = none) :
    (fetchPlaceDetailsRun w cache name dest).1 = .fallbackV name (getFallbackImage [])
    ∧ (fetchPlaceDetailsRun w cache name dest).2.1 = cache
    ∧ (fetchPlaceDetailsRun w cache name dest).2.2.2 = []
    ∧ (resolveViaLoop w cache dest name).1 = .fallbackV name (getFallbackImage [])
    ∧ (resolveViaLoop w cache dest name).2.2.2 = []
    ∧ mget (resolveViaLoop w cache dest name).2.1 name
        = some (.fallbackV name (getFallbackImage []))
    ∧ (resolveViaLoop w (resolveViaLoop w cache dest name).2.1 dest name).1
        = .fallbackV name (getFallbackImage [])
    ∧ (resolveViaLoop w (resolveViaLoop w cache dest name).2.1 dest name).2.2.1 = [] := by
  have hmiss : fetchAfterMemMiss w name dest
      = (.fallbackV name (getFallbackImage []), [],
         [.dbRead name, .gTextSearch (if dest == "" then name else dest ++ " " ++ name)],
         []) := by
    rw [fetchAfterMemMiss, hdb]
    simp only [hg]
  have hfetch : fetchPlaceDetailsRun w cache name dest
      = (.fallbackV name (getFallbackImage []), cache,
         [.dbRead name, .gTextSearch (if dest == "" then name else dest ++ " " ++ name)],
         []) := by
    simp [fetchPlaceDetailsRun, hs, hm, hmiss, applyOps]
  have hloop : resolveViaLoop w cache dest name
      = (.fallbackV name (getFallbackImage []),
         addToCache cache name (.fallbackV name (getFallbackImage [])),
         [.dbRead name, .gTextSearch (if dest == "" then name else dest ++ " " ++ name)],
         []) := by
    simp [resolveViaLoop, hs, hm, hmiss, applyOps]
  have hcached : mget (resolveViaLoop w cache dest name).2.1 name
      = some (.fallbackV name (getFallbackImage [])) := by
    rw [hloop]
    exact mget_addToCache_self cache name _
  have hsecond : resolveViaLoop w (resolveViaLoop w cache dest name).2.1 dest name
      = (.fallbackV name (getFallbackImage []),
         (resolveViaLoop w cache dest name).2.1, [], []) := by
    rw [resolveViaLoop.eq_def]
    rw [hcached]
  exact ⟨by rw [hfetch], by rw [hfetch], by rw [hfetch], by rw [hloop], by rw [hloop],
    hcached, by rw [hsecond], by rw [hsecond]⟩

/-- Witness for the amended C1 at the concrete all-miss world. -/
theorem claim_c1_witness :
    (fetchPlaceDetailsRun allMissWorld [] "부산포차" "부산").1
      = .fallbackV "부산포차" (getFallbackImage [])
    ∧ (fetchPlaceDetailsRun allMissWorld [] "부산포차" "부산").2.1 = [] := by
  have h := claim_c1_amended allMissWorld [] "부산" "부산포차" (by decide) rfl rfl rfl
  exact ⟨h.1, h.2.1⟩

/-! ## Claim C5: at-most-one in-flight resolution per raw name -/

theorem tstep_resolve_mem (s : TState) (n : String) (h : n ∈ s.cache) :
    tstep s (.resolve n) = s := by
  simp [tstep, h]

theorem tstep_resolve_small (s : TState) (m : String) (hmem : m ∉ s.cache)
    (hfull : ¬ MAX_CACHE_SIZE ≤ s.cache.length) :
    tstep s (.resolve m)
      = { cache := s.cache ++ [m], inflight := s.inflight ++ [m],
          calls := s.calls ++ [m], cleared := s.cleared } := by
  simp [tstep, hmem, hfull]

theorem tstep_resolve_full (s : TState) (m : String) (hmem : m ∉ s.cache)
    (hfull : MAX_CACHE_SIZE ≤ s.cache.length) :
    tstep s (.resolve m)
      = { cache := [m], inflight := s.inflight ++ [m],
          calls := s.calls ++ [m], cleared := true } := by
  simp [tstep, hmem, hfull]

theorem runTrace_const (s : TState) (n : String) (h : n ∈ s.cache) (k : Nat) :
    runTrace s (List.replicate k (.resolve n)) = s := by
  induction k with
  | zero => rfl
  | succ m ih =>
    rw [List.replicate_succ, runTrace, List.foldl_cons, tstep_resolve_mem s n h]
    exact ih

theorem tstep_inv (s : TState) (a : TAct)
    (h : s.cleared = false → ∀ n, n ∈ s.inflight →
      s.inflight.count n = 1 ∧ n ∈ s.cache) :
    (tstep s a).cleared = false → ∀ n, n ∈ (tstep s a).inflight →
      (tstep s a).inflight.count n = 1 ∧ n ∈ (tstep s a).cache := by
  cases a with
  | resolve m =>
    by_cases hmem : m ∈ s.cache
    · rw [tstep_resolve_mem s m hmem]
      exact h
    · by_cases hfull : MAX_CACHE_SIZE ≤ s.cache.length
      · rw [tstep_resolve_full s m hmem hfull]
        intro hcl
        exact Bool.noConfusion hcl
      · rw [tstep_resolve_small s m hmem hfull]
        intro hcl n hn
        have hnin : m ∉ s.inflight := by
          intro hmi
          exact hmem ((h hcl m hmi).2)
        rcases List.mem_append.mp hn with h1 | h1
        · have hne : n ≠ m := fun he => hnin (he ▸ h1)
          have hh := h hcl n h1
          constructor
          · have hcnt : List.count n [m] = 0 :=
              List.count_eq_zero.mpr (by simp [hne])
            rw [List.count_append, hcnt, Nat.add_zero]
            exact hh.1
          · exact List.mem_append.mpr (Or.inl hh.2)
        · have hnm : n = m := by simpa using h1
          subst hnm
          constructor
          · have hcnt0 : List.count n s.inflight = 0 := List.count_eq_zero.mpr hnin
            rw [List.count_append, hcnt0, Nat.zero_add]
            simp
          · exact List.mem_append.mpr (Or.inr (by simp))
  | complete m =>
    intro hcl n hn
    simp only [tstep] at hcl hn ⊢
    have hsub : n ∈ s.inflight := List.mem_of_mem_erase hn
    have hh := h hcl n hsub
    by_cases hnm : n = m
    · subst hnm
      have he : (s.inflight.erase n).count n = s.inflight.count n - 1 :=
        List.count_erase_self n s.inflight
      rw [hh.1] at he
      have hz : (s.inflight.erase n).count n = 0 := by omega
      have hni : n ∉ s.inflight.erase n := List.count_eq_zero.mp hz
      exact absurd hn hni
    · constructor
      · rw [List.count_erase_of_ne hnm s.inflight]
        exact hh.1
      · exact hh.2

theorem runTrace_inv (acts : List TAct) :
    ∀ s : TState,
    (s.cleared = false → ∀ n, n ∈ s.inflight → s.inflight.count n = 1 ∧ n ∈ s.cache) →
    ((runTrace s acts).cleared = false → ∀ n, n ∈ (runTrace s acts).inflight →
      (runTrace s acts).inflight.count n = 1 ∧ n ∈ (runTrace s acts).cache) := by
  induction acts with
  | nil => intro s h; exact h
  | cons a rest ih =>
    intro s h
    rw [runTrace, List.foldl_cons]
    exact ih (tstep s a) (tstep_inv s a h)

/-- C5 amended: as long as no clear-on-full eviction has occurred, at
most one external resolution per distinct raw name is in flight at any
time; and firing any number of concurrent resolutions for one
previously-unseen raw name, with nothing else interleaved, issues
exactly one external search call. -/
theorem claim_c5_amended :
    (∀ (acts : List TAct) (n : String),
      (runTrace TState.init acts).cleared = false →
      (runTrace TState.init acts).inflight.count n ≤ 1)
    ∧ (∀ (s : TState) (n : String) (N : Nat), 1 ≤ N →
        n ∉ s.cache → s.calls.count n = 0 →
        (runTrace s (List.replicate N (.resolve n))).calls.count n = 1) := by
  constructor
  · intro acts n hcl
    have hinv := runTrace_inv acts TState.init
      (by intro _ n2 hn2; cases hn2) hcl
    by_cases hmem : n ∈ (runTrace TState.init acts).inflight
    · exact le_of_eq (hinv n hmem).1
    · rw [List.count_eq_zero.mpr hmem]
      omega
  · intro s n N hN hmem hz
    obtain ⟨M, rfl⟩ : ∃ M, N = M + 1 := ⟨N - 1, by omega⟩
    rw [List.replicate_succ, runTrace, List.foldl_cons]
    have hone : (tstep s (.resolve n)).calls.count n = 1
        ∧ n ∈ (tstep s (.resolve n)).cache := by
      by_cases hfull : MAX_CACHE_SIZE ≤ s.cache.length
      · rw [tstep_resolve_full s n hmem hfull]
        constructor
        · rw [List.count_append, hz, Nat.zero_add]
          simp
        · simp
      · rw [tstep_resolve_small s n hmem hfull]
        constructor
        · rw [List.count_append, hz, Nat.zero_add]
          simp
        · simp
    have habs : runTrace (tstep s (.resolve n)) (List.replicate M (.resolve n))
        = tstep s (.resolve n) := runTrace_const _ n hone.2 M
    rw [show List.foldl tstep (tstep s (.resolve n)) (List.replicate M (.resolve n))
        = runTrace (tstep s (.resolve n)) (List.replicate M (.resolve n)) from rfl, habs]
    exact hone.1

/-- Witness for the amended C5: ten concurrent resolutions of one fresh
name issue exactly one external call. -/
theorem claim_c5_witness :
    (runTrace TState.init ([] : List TAct)).inflight.count "x" ≤ 1
    ∧ (runTrace TState.init (List.replicate 10 (.resolve "n"))).calls.count "n" = 1 :=
  ⟨claim_c5_amended.1 [] "x" rfl,
   claim_c5_amended.2 TState.init "n" 10 (by norm_num) (List.not_mem_nil "n") rfl⟩

theorem fillName_inj : Function.Injective fillName := by
  intro i j h
  have h2 : ('m' :: List.replicate i 'a').length = ('m' :: List.replicate j 'a').length :=
    congrArg (fun s : String => s.data.length) h
  simpa using h2

theorem fillName_ne_n (i : Nat) : fillName i ≠ "n" := by
  intro h
  have h2 : 'm' :: List.replicate i 'a' = "n".data :=
    congrArg String.data h
  have h3 : 'm' :: List.replicate i 'a' = ['n'] := h2
  injection h3 with h4 h5
  exact absurd h4 (by decide)

theorem fillNames_nodup : fillNames.Nodup :=
  List.Nodup.map fillName_inj (List.nodup_range 999)

theorem n_not_mem_fillNames : "n" ∉ fillNames := by
  intro h
  rcases List.mem_map.mp h with ⟨i, _, hi⟩
  exact fillName_ne_n i hi

theorem overflow_not_mem_fillNames : overflowName ∉ fillNames := by
  intro h
  rcases List.mem_map.mp h with ⟨i, hir, hi⟩
  have : i = 999 := fillName_inj hi
  rw [this] at hir
  exact absurd (List.mem_range.mp hir) (by norm_num)

theorem fillNames_length : fillNames.length = 999 := by
  simp [fillNames]

theorem runTrace_nil (s : TState) : runTrace s [] = s := rfl

theorem runTrace_cons (s : TState) (a : TAct) (l : List TAct) :
    runTrace s (a :: l) = runTrace (tstep s a) l := by
  rw [runTrace, runTrace, List.foldl_cons]

theorem runTrace_append (s : TState) (l1 l2 : List TAct) :
    runTrace s (l1 ++ l2) = runTrace (runTrace s l1) l2 := by
  rw [runTrace, runTrace, runTrace, List.foldl_append]

theorem runTrace_fill (names : List String) :
    ∀ s : TState, names.Nodup → (∀ x ∈ names, x ∉ s.cache) →
    s.cache.length + names.length ≤ MAX_CACHE_SIZE →
    runTrace s (names.map .resolve)
      = { cache := s.cache ++ names, inflight := s.inflight ++ names,
          calls := s.calls ++ names, cleared := s.cleared } := by
  induction names with
  | nil => intro s _ _ _; simp [runTrace]
  | cons x rest ih =>
    intro s hnd hfresh hlen
    have hx : x ∉ s.cache := hfresh x (by simp)
    have hfull : ¬ MAX_CACHE_SIZE ≤ s.cache.length := by
      have h2 : s.cache.length + (rest.length + 1) ≤ MAX_CACHE_SIZE := by
        simpa using hlen
      omega
    rw [List.map_cons, runTrace_cons, tstep_resolve_small s x hx hfull]
    rw [ih _ (List.nodup_cons.mp hnd).2
      (fun y hy => by
        intro hmem
        rcases List.mem_append.mp hmem with h1 | h1
        · exact hfresh y (List.mem_cons_of_mem x hy) h1
        · have h3 : y = x := by simpa using h1
          exact (List.nodup_cons.mp hnd).1 (h3 ▸ hy))
      (by
        have h2 : s.cache.length + (rest.length + 1) ≤ MAX_CACHE_SIZE := by
          simpa using hlen
        simp only [List.length_append, List.length_singleton]
        omega)]
    simp

/-- C5 counterexample: while a resolution for n is in flight, filling
the cache with 1000 other fresh names makes addToCache clear the map
and evict the pending promise of n, so a further resolve for n starts a
second in-flight external resolution: two are in flight at once and two
external calls are issued for the same raw name. -/
theorem claim_c5_counterexample :
    2 ≤ (runTrace TState.init evictTrace).inflight.count "n"
    ∧ 2 ≤ (runTrace TState.init evictTrace).calls.count "n" := by
  have h0 : tstep TState.init (.resolve "n")
      = { cache := ["n"], inflight := ["n"], calls := ["n"], cleared := false } := by
    rw [tstep_resolve_small TState.init "n" (List.not_mem_nil "n")
      (by norm_num [MAX_CACHE_SIZE, TState.init])]
    rfl
  have h1 : runTrace ({ cache := ["n"], inflight := ["n"], calls := ["n"], cleared := false } : TState) (fillNames.map .resolve)
      = { cache := "n" :: fillNames, inflight := "n" :: fillNames,
          calls := "n" :: fillNames, cleared := false } := by
    rw [runTrace_fill fillNames _ fillNames_nodup
      (fun x hx => by
        intro hmem
        have h3 : x = "n" := by simpa using hmem
        exact n_not_mem_fillNames (h3 ▸ hx))
      (by simp [fillNames_length, MAX_CACHE_SIZE])]
    simp
  have hmem2 : overflowName ∉ "n" :: fillNames := by
    intro h
    rcases List.mem_cons.mp h with h2 | h2
    · exact fillName_ne_n 999 h2
    · exact overflow_not_mem_fillNames h2
  have hfull2 : MAX_CACHE_SIZE ≤ ("n" :: fillNames).length := by
    simp [fillNames_length, MAX_CACHE_SIZE]
  have h2 := tstep_resolve_full ({ cache := "n" :: fillNames, inflight := "n" :: fillNames, calls := "n" :: fillNames, cleared := false } : TState) overflowName hmem2 hfull2
  have hmem3 : "n" ∉ ([overflowName] : List String) := by
    intro h
    have h3 : "n" = overflowName := by simpa using h
    exact fillName_ne_n 999 h3.symm
  have e1 : runTrace TState.init evictTrace
      = tstep (tstep (runTrace (tstep TState.init (.resolve "n"))
          (fillNames.map .resolve)) (.resolve overflowName)) (.resolve "n") := by
    rw [evictTrace, runTrace_cons, runTrace_append, runTrace_cons, runTrace_cons,
      runTrace_nil]
  rw [e1, h0, h1, h2]
  have h3 := tstep_resolve_small ({ cache := [overflowName], inflight := ("n" :: fillNames) ++ [overflowName], calls := ("n" :: fillNames) ++ [overflowName], cleared := true } : TState) "n" hmem3 (by norm_num [MAX_CACHE_SIZE])
  rw [h3]
  have hcn : List.count "n" fillNames = 0 :=
    List.count_eq_zero.mpr n_not_mem_fillNames
  have hco : List.count "n" [overflowName] = 0 :=
    List.count_eq_zero.mpr hmem3
  constructor
  · simp only [List.count_append, List.count_cons, hcn, hco]
    simp
  · simp only [List.count_append, List.count_cons, hcn, hco]
    simp

/-! ## Claim C4: trip-wide deduplication -/

/-- C4 counterexample: two distinct raw names that resolve to the same
cached place survive dedup (which compares raw names) and both receive
the same canonical display name, so two non-structural activities of
the processed trip share one display name. -/
theorem claim_c4_counterexample :
    nonExemptDisplayNames (processItinerary towerWorld "서울" [] [towerActs]).1
      = ["N서울타워", "N서울타워"]
    ∧ ¬ (nonExemptDisplayNames (processItinerary towerWorld "서울" [] [towerActs]).1).Nodup := by
  refine ⟨by decide, by decide⟩

theorem beautyFix_place_name (a : Activity) :
    (beautyFix a).place_name = a.place_name := by
  unfold beautyFix
  split
  · split
    · rfl
    · rfl
  · rfl

theorem draftNames_map_beautyFix (l : List Activity) :
    draftNamesOf (l.map beautyFix) = draftNamesOf l := by
  induction l with
  | nil => rfl
  | cons a rest ih =>
    unfold draftNamesOf at ih ⊢
    rw [List.map_cons, List.filterMap_cons, List.filterMap_cons,
      beautyFix_place_name, ih]

theorem enrichOne_draftName (w : World) (dest : String) (cache : JsMap PlaceVal)
    (a : Activity) : (enrichOne w dest cache a).1.draftName = a.place_name := by
  unfold enrichOne
  split
  · rfl
  · rfl

theorem enrichAll_draft (w : World) (dest : String) (l : List Activity) :
    ∀ cache, outDraftNamesOf (enrichAll w dest cache l).1 = draftNamesOf l := by
  induction l with
  | nil => intro cache; rfl
  | cons a rest ih =>
    intro cache
    show outDraftNamesOf ((enrichOne w dest cache a).1
        :: (enrichAll w dest (enrichOne w dest cache a).2 rest).1, _).1
      = draftNamesOf (a :: rest)
    unfold outDraftNamesOf draftNamesOf
    rw [List.filterMap_cons, List.filterMap_cons, enrichOne_draftName]
    unfold outDraftNamesOf draftNamesOf at ih
    rw [ih]

theorem draftNamesOf_cons_exempt (a : Activity) (l : List Activity)
    (he : isDedupExempt a.place_name = true) :
    draftNamesOf (a :: l) = draftNamesOf l := by
  unfold draftNamesOf
  rw [List.filterMap_cons, if_pos he]

theorem draftNamesOf_cons_keep (a : Activity) (l : List Activity)
    (he : isDedupExempt a.place_name = false) :
    draftNamesOf (a :: l) = a.place_name :: draftNamesOf l := by
  unfold draftNamesOf
  rw [List.filterMap_cons,
    if_neg (fun h => by rw [he] at h; exact Bool.noConfusion h)]

theorem dedupActs_cons_exempt (seen : List String) (a : Activity)
    (rest : List Activity) (he : isDedupExempt a.place_name = true) :
    dedupActs seen (a :: rest)
      = (a :: (dedupActs seen rest).1, (dedupActs seen rest).2) := by
  rw [dedupActs, if_pos he]

theorem dedupActs_cons_dup (seen : List String) (a : Activity)
    (rest : List Activity) (he : ¬ isDedupExempt a.place_name = true)
    (hc : seen.contains a.place_name = true) :
    dedupActs seen (a :: rest) = dedupActs seen rest := by
  rw [dedupActs, if_neg he, if_pos hc]

theorem dedupActs_cons_fresh (seen : List String) (a : Activity)
    (rest : List Activity) (he : ¬ isDedupExempt a.place_name = true)
    (hc : ¬ seen.contains a.place_name = true) :
    dedupActs seen (a :: rest)
      = (a :: (dedupActs (seen ++ [a.place_name]) rest).1,
         (dedupActs (seen ++ [a.place_name]) rest).2) := by
  rw [dedupActs, if_neg he, if_neg hc]

theorem dedupActs_seen_sub (acts : List Activity) :
    ∀ seen n, n ∈ seen → n ∈ (dedupActs seen acts).2 := by
  induction acts with
  | nil => intro seen n h; exact h
  | cons a rest ih =>
    intro seen n h
    by_cases he : isDedupExempt a.place_name = true
    · rw [dedupActs_cons_exempt seen a rest he]
      exact ih seen n h
    · by_cases hc : seen.contains a.place_name = true
      · rw [dedupActs_cons_dup seen a rest he hc]
        exact ih seen n h
      · rw [dedupActs_cons_fresh seen a rest he hc]
        exact ih _ n (List.mem_append.mpr (Or.inl h))

theorem dedupActs_spec (acts : List Activity) :
    ∀ seen,
    (draftNamesOf (dedupActs seen acts).1).Nodup
    ∧ ∀ n ∈ draftNamesOf (dedupActs seen acts).1,
        n ∉ seen ∧ n ∈ (dedupActs seen acts).2 := by
  induction acts with
  | nil =>
    intro seen
    exact ⟨List.nodup_nil, fun n h => nomatch h⟩
  | cons a rest ih =>
    intro seen
    by_cases he : isDedupExempt a.place_name = true
    · rw [dedupActs_cons_exempt seen a rest he]
      have hnames : draftNamesOf (a :: (dedupActs seen rest).1)
          = draftNamesOf (dedupActs seen rest).1 :=
        draftNamesOf_cons_exempt a _ he
      refine ⟨?_, ?_⟩
      · rw [show ((a :: (dedupActs seen rest).1, (dedupActs seen rest).2)).1 = a :: (dedupActs seen rest).1 from rfl, hnames]
        exact (ih seen).1
      · intro n hn
        rw [show ((a :: (dedupActs seen rest).1, (dedupActs seen rest).2)).1 = a :: (dedupActs seen rest).1 from rfl, hnames] at hn
        exact (ih seen).2 n hn
    · by_cases hc : seen.contains a.place_name = true
      · rw [dedupActs_cons_dup seen a rest he hc]
        exact ih seen
      · rw [dedupActs_cons_fresh seen a rest he hc]
        have hnot : a.place_name ∉ seen := fun hm => hc (List.elem_iff.mpr hm)
        have he2 : isDedupExempt a.place_name = false := Bool.eq_false_iff.mpr he
        have hnames : draftNamesOf (a :: (dedupActs (seen ++ [a.place_name]) rest).1)
            = a.place_name :: draftNamesOf (dedupActs (seen ++ [a.place_name]) rest).1 :=
          draftNamesOf_cons_keep a _ he2
        have ih2 := ih (seen ++ [a.place_name])
        refine ⟨?_, ?_⟩
        · rw [show ((a :: (dedupActs (seen ++ [a.place_name]) rest).1, (dedupActs (seen ++ [a.place_name]) rest).2)).1 = a :: (dedupActs (seen ++ [a.place_name]) rest).1 from rfl, hnames]
          refine List.nodup_cons.mpr ⟨?_, ih2.1⟩
          intro hmem
          exact (ih2.2 a.place_name hmem).1 (List.mem_append.mpr (Or.inr (by simp)))
        · intro n hn
          rw [show ((a :: (dedupActs (seen ++ [a.place_name]) rest).1, (dedupActs (seen ++ [a.place_name]) rest).2)).1 = a :: (dedupActs (seen ++ [a.place_name]) rest).1 from rfl, hnames] at hn
          rcases List.mem_cons.mp hn with h1 | h1
          · subst h1
            exact ⟨hnot, dedupActs_seen_sub rest _ a.place_name
              (List.mem_append.mpr (Or.inr (by simp)))⟩
          · have hh := ih2.2 n h1
            exact ⟨fun hs => hh.1 (List.mem_append.mpr (Or.inl hs)), hh.2⟩

theorem processDay_names (w : World) (dest : String) (cache : JsMap PlaceVal)
    (seen : List String) (acts : List Activity) :
    outDraftNamesOf (processDay w dest cache seen acts).1
      = draftNamesOf (dedupActs seen acts).1
    ∧ (processDay w dest cache seen acts).2.2 = (dedupActs seen acts).2 := by
  constructor
  · show outDraftNamesOf (enrichAll w dest cache ((dedupActs seen acts).1.map beautyFix)).1 = _
    rw [enrichAll_draft, draftNames_map_beautyFix]
  · rfl

theorem nonExemptDraftNames_cons (d : List OutAct) (rest : List (List OutAct)) :
    nonExemptDraftNames (d :: rest)
      = outDraftNamesOf d ++ nonExemptDraftNames rest := by
  unfold nonExemptDraftNames outDraftNamesOf
  rw [List.flatten_cons, List.filterMap_append]

theorem processDays_spec (w : World) (dest : String) (days : List (List Activity)) :
    ∀ cache seen,
    (nonExemptDraftNames (processDays w dest cache seen days).1).Nodup
    ∧ ∀ n ∈ nonExemptDraftNames (processDays w dest cache seen days).1, n ∉ seen := by
  induction days with
  | nil =>
    intro cache seen
    exact ⟨List.nodup_nil, fun n h => nomatch h⟩
  | cons d rest ih =>
    intro cache seen
    have hshape : (processDays w dest cache seen (d :: rest)).1
        = (processDay w dest cache seen d).1
          :: (processDays w dest (processDay w dest cache seen d).2.1
              (processDay w dest cache seen d).2.2 rest).1 := rfl
    rw [hshape, nonExemptDraftNames_cons]
    have hday := processDay_names w dest cache seen d
    have hdedup := dedupActs_spec d seen
    have hih := ih (processDay w dest cache seen d).2.1 (processDay w dest cache seen d).2.2
    constructor
    · refine List.Nodup.append ?_ hih.1 ?_
      · rw [hday.1]
        exact hdedup.1
      · intro n hn1 hn2
        have h1 : n ∈ (dedupActs seen d).2 := by
          rw [hday.1] at hn1
          exact (hdedup.2 n hn1).2
        rw [hday.2] at hih
        exact hih.2 n hn2 h1
    · intro n hn
      rcases List.mem_append.mp hn with h1 | h1
      · rw [hday.1] at h1
        exact (hdedup.2 n h1).1
      · intro hs
        rw [hday.2] at hih
        exact hih.2 n h1 (dedupActs_seen_sub d seen n hs)

/-- C4 amended: after post-processing no two non-structural activities
across the whole trip share an identical draft (pre-resolution) place
name — the dedup set spans all days — though the canonical place_name
overwrite can still give two activities the same display name. -/
theorem claim_c4_amended (w : World) (dest : String) (cache : JsMap PlaceVal)
    (days : List (List Activity)) :
    (nonExemptDraftNames (processItinerary w dest cache days).1).Nodup :=
  (processDays_spec w dest days cache []).1

/-! ## Claim C8: booking URL derivation -/

/-- C8 counterexample: the resolved place of a booking-required,
non-park activity has an official website, and the first request uses
it; but a second request is served the raw snake_case row from the
in-process cache, where the camelCase websiteUri and googleMapsUri
reads find nothing, so the constructed web-search URL is used instead
of the official website — the priority order is not honoured. -/
theorem claim_c8_counterexample :
    gyojaRow.website_uri = some "https://www.mdkj.co.kr"
    ∧ gyojaAct.is_booking_required = true
    ∧ gyojaRun1.1.flatten.map OutAct.bookingUrlOf = [some "https://www.mdkj.co.kr"]
    ∧ gyojaRun2.1.flatten.map OutAct.bookingUrlOf
        = [some "https://www.google.com/search?q=서울+명동교자+예약"]
    ∧ gyojaRun2.1.flatten.map OutAct.typesOf = [some ["restaurant"]] := by
  refine ⟨rfl, rfl, by decide, by decide, by decide⟩

theorem finalBookingUrl_of_park (dest : String) (a : Activity) (d : PlaceVal)
    (hp : parkTagged d = true) : finalBookingUrl dest a d = none := by
  unfold finalBookingUrl
  simp [hp]

theorem finalBookingUrl_of_not_required (dest : String) (a : Activity) (d : PlaceVal)
    (hb : a.is_booking_required = false) : finalBookingUrl dest a d = none := by
  unfold finalBookingUrl
  simp [hb]

theorem finalBookingUrl_of_website (dest : String) (a : Activity) (d : PlaceVal)
    (hp : parkTagged d = false) (hb : a.is_booking_required = true)
    (hw : optStrTruthy d.websiteUriOf = true) :
    finalBookingUrl dest a d = d.websiteUriOf := by
  unfold finalBookingUrl
  simp [hp, hb, hw]

theorem finalBookingUrl_of_map (dest : String) (a : Activity) (d : PlaceVal)
    (hp : parkTagged d = false) (hb : a.is_booking_required = true)
    (hw : optStrTruthy d.websiteUriOf = false)
    (hg : optStrTruthy d.googleMapsUriOf = true) :
    finalBookingUrl dest a d = d.googleMapsUriOf := by
  unfold finalBookingUrl
  simp [hp, hb, hw, hg]

theorem finalBookingUrl_of_search (dest : String) (a : Activity) (d : PlaceVal)
    (hp : parkTagged d = false) (hb : a.is_booking_required = true)
    (hw : optStrTruthy d.websiteUriOf = false)
    (hg : optStrTruthy d.googleMapsUriOf = false) :
    finalBookingUrl dest a d
      = some ("https://www.google.com/search?q=" ++ dest ++ "+"
          ++ a.place_name ++ "+예약") := by
  unfold finalBookingUrl
  simp [hp, hb, hw, hg]

theorem enrichAll_shape (w : World) (dest : String) (l : List Activity) :
    ∀ cache o, o ∈ (enrichAll w dest cache l).1 →
    (∃ a, o = .plain a)
    ∨ ∃ a d, o = .merged a d (finalBookingUrl dest a d)
        (jsOrStr (some d.place_nameOf) a.place_name) := by
  induction l with
  | nil => intro cache o ho; cases ho
  | cons a rest ih =>
    intro cache o ho
    have hshape : (enrichAll w dest cache (a :: rest)).1
        = (enrichOne w dest cache a).1
          :: (enrichAll w dest (enrichOne w dest cache a).2 rest).1 := rfl
    rw [hshape] at ho
    rcases List.mem_cons.mp ho with h1 | h1
    · subst h1
      unfold enrichOne
      split
      · exact Or.inl ⟨a, rfl⟩
      · exact Or.inr ⟨a, (resolveViaLoop w cache dest a.place_name).1, rfl⟩
    · exact ih _ o h1

theorem processDays_shape (w : World) (dest : String) (days : List (List Activity)) :
    ∀ cache seen o, o ∈ (processDays w dest cache seen days).1.flatten →
    (∃ a, o = .plain a)
    ∨ ∃ a d, o = .merged a d (finalBookingUrl dest a d)
        (jsOrStr (some d.place_nameOf) a.place_name) := by
  induction days with
  | nil => intro cache seen o ho; cases ho
  | cons d rest ih =>
    intro cache seen o ho
    have hshape : (processDays w dest cache seen (d :: rest)).1
        = (processDay w dest cache seen d).1
          :: (processDays w dest (processDay w dest cache seen d).2.1
              (processDay w dest cache seen d).2.2 rest).1 := rfl
    rw [hshape, List.flatten_cons] at ho
    rcases List.mem_append.mp ho with h1 | h1
    · exact enrichAll_shape w dest _ cache o h1
    · exact ih _ _ o h1

/-- C8 amended: every post-processed activity either comes from the
transit skip path and has no booking URL, or carries exactly the
booking URL of the derivation rule: null for park or natural_feature
tags and for activities not requiring booking, and otherwise the first
truthy of the camelCase websiteUri and googleMapsUri reads of the
served details object — which are absent on raw snake_case rows served
from the in-process cache — followed by the constructed web-search URL. -/
theorem claim_c8_amended (w : World) (dest : String) (cache : JsMap PlaceVal)
    (days : List (List Activity)) (o : OutAct)
    (ho : o ∈ (processItinerary w dest cache days).1.flatten) :
    (∀ a, o = .plain a → o.bookingUrlOf = none)
    ∧ (∀ a d b n, o = .merged a d b n →
        b = finalBookingUrl dest a d
        ∧ (parkTagged d = true → b = none)
        ∧ (a.is_booking_required = false → b = none)
        ∧ (parkTagged d = false → a.is_booking_required = true →
            optStrTruthy d.websiteUriOf = true → b = d.websiteUriOf)
        ∧ (parkTagged d = false → a.is_booking_required = true →
            optStrTruthy d.websiteUriOf = false →
            optStrTruthy d.googleMapsUriOf = true → b = d.googleMapsUriOf)
        ∧ (parkTagged d = false → a.is_booking_required = true →
            optStrTruthy d.websiteUriOf = false →
            optStrTruthy d.googleMapsUriOf = false →
            b = some ("https://www.google.com/search?q=" ++ dest ++ "+"
              ++ a.place_name ++ "+예약"))) := by
  constructor
  · intro a h
    subst h
    rfl
  · intro a d b n h
    rcases processDays_shape w dest days cache [] o ho with ⟨a2, h2⟩ | ⟨a2, d2, h2⟩
    · rw [h2] at h
      exact OutAct.noConfusion h
    · rw [h2] at h
      have hinj := OutAct.merged.inj h
      obtain ⟨ha, hd, hb, _⟩ := hinj
      subst ha
      subst hd
      subst hb
      refine ⟨rfl, ?_, ?_, ?_, ?_, ?_⟩
      · intro hp
        exact finalBookingUrl_of_park dest a2 d2 hp
      · intro hbr
        exact finalBookingUrl_of_not_required dest a2 d2 hbr
      · intro hp hbr hw
        exact finalBookingUrl_of_website dest a2 d2 hp hbr hw
      · intro hp hbr hw hg
        exact finalBookingUrl_of_map dest a2 d2 hp hbr hw hg
      · intro hp hbr hw hg
        exact finalBookingUrl_of_search dest a2 d2 hp hbr hw hg

/-- Witness for the amended C8 at the first gyoja request. -/
theorem claim_c8_witness :
    some "https://www.mdkj.co.kr"
      = finalBookingUrl "서울" gyojaAct (.dbConverted gyojaRow) :=
  ((claim_c8_amended gyojaWorld "서울" [] [[gyojaAct]]
    (OutAct.merged gyojaAct (.dbConverted gyojaRow)
      (some "https://www.mdkj.co.kr") "명동교자") (by decide)).2
    gyojaAct (.dbConverted gyojaRow) (some "https://www.mdkj.co.kr") "명동교자" rfl).1

/-! ## Claim C6: tier order of the image search -/

theorem kwLoop_eq (try0 : String → Option String) (q : String) :
    ∀ kws : List String,
    kwSearchLoop try0 q kws
      = firstHitRun try0 (kws.map (fun kw => q ++ " " ++ kw)) := by
  intro kws
  induction kws with
  | nil => rfl
  | cons kw rest ih =>
    rw [List.map_cons]
    cases h : try0 (q ++ " " ++ kw) with
    | some r => simp [kwSearchLoop, firstHitRun, h]
    | none => simp [kwSearchLoop, firstHitRun, h, ih]

theorem fni_eq_firstHit (try0 : String → Option String) (q : String) :
    fetchNaverImageRun try0 true q = firstHitRun try0 (tierQueries q) := by
  unfold tierQueries
  cases h0 : try0 q with
  | some r =>
    simp [fetchNaverImageRun, firstHitRun, h0]
  | none =>
    by_cases hby : hasByPattern q = true
    · cases h1 : try0 (stripBy q) with
      | some r =>
        simp [fetchNaverImageRun, firstHitRun, h0, hby, h1]
      | none =>
        cases h2 : try0 (stripBy q ++ " hotel") with
        | some r =>
          simp [fetchNaverImageRun, firstHitRun, h0, hby, h1, h2]
        | none =>
          simp [fetchNaverImageRun, firstHitRun, h0, hby, h1, h2, kwLoop_eq]
    · have hby2 : hasByPattern q = false := Bool.eq_false_iff.mpr hby
      simp [fetchNaverImageRun, firstHitRun, h0, hby2, kwLoop_eq]

theorem fhr_take (try0 : String → Option String) :
    ∀ l : List String, ∃ k, (firstHitRun try0 l).2 = l.take k := by
  intro l
  induction l with
  | nil => exact ⟨0, rfl⟩
  | cons x rest ih =>
    cases h : try0 x with
    | some r => exact ⟨1, by simp [firstHitRun, h]⟩
    | none =>
      obtain ⟨k, hk⟩ := ih
      exact ⟨k + 1, by simp [firstHitRun, h, hk, List.take_succ_cons]⟩

theorem fhr_none (try0 : String → Option String) :
    ∀ l : List String, (firstHitRun try0 l).1 = none →
    (firstHitRun try0 l).2 = l ∧ ∀ x ∈ l, try0 x = none := by
  intro l
  induction l with
  | nil => intro _; exact ⟨rfl, fun x h => nomatch h⟩
  | cons x rest ih =>
    intro hres
    cases h : try0 x with
    | some r =>
      rw [show (firstHitRun try0 (x :: rest)).1 = ((firstHitRun try0 (x :: rest))).1 from rfl] at hres
      simp [firstHitRun, h] at hres
    | none =>
      have hres2 : (firstHitRun try0 rest).1 = none := by
        simp only [firstHitRun, h] at hres
        exact hres
      have hh := ih hres2
      constructor
      · simp only [firstHitRun, h]
        rw [hh.1]
      · intro y hy
        rcases List.mem_cons.mp hy with h1 | h1
        · subst h1; exact h
        · exact hh.2 y h1

theorem fhr_some (try0 : String → Option String) :
    ∀ (l : List String) (r : String), (firstHitRun try0 l).1 = some r →
    ∃ pre x, (firstHitRun try0 l).2 = pre ++ [x]
      ∧ try0 x = some r ∧ ∀ y ∈ pre, try0 y = none := by
  intro l
  induction l with
  | nil => intro r h; exact absurd h (by simp [firstHitRun])
  | cons x rest ih =>
    intro r hres
    cases h : try0 x with
    | some r0 =>
      have hr : r0 = r := by
        simp only [firstHitRun, h] at hres
        exact Option.some.inj hres
      subst hr
      exact ⟨[], x, by simp [firstHitRun, h], h, fun y hy => nomatch hy⟩
    | none =>
      have hres2 : (firstHitRun try0 rest).1 = some r := by
        simp only [firstHitRun, h] at hres
        exact hres
      obtain ⟨pre, x2, h1, h2, h3⟩ := ih r hres2
      refine ⟨x :: pre, x2, ?_, h2, ?_⟩
      · simp only [firstHitRun, h]
        rw [h1, List.cons_append]
      · intro y hy
        rcases List.mem_cons.mp hy with hh | hh
        · subst hh; exact h
        · exact h3 y hh

theorem lowerChar_inv (c r : Char) (h : lowerChar c = r) :
    c = r ∨ ∃ p ∈ upChars, p.1 = c ∧ p.2 = r := by
  unfold lowerChar at h
  cases hf : upChars.find? (fun p => p.1 == c) with
  | none =>
    rw [hf] at h
    exact Or.inl h
  | some p =>
    rw [hf] at h
    have hm := List.mem_of_find?_eq_some hf
    have hc := List.find?_some hf
    exact Or.inr ⟨p, hm, beq_iff_eq.mp hc, h⟩

theorem lowerChar_sp (c : Char) (h : lowerChar c = ' ') : c = ' ' := by
  rcases lowerChar_inv c ' ' h with h1 | ⟨p, hp, hpc, hp2⟩
  · exact h1
  · exact absurd hp2 ((by decide : ∀ x ∈ upChars, x.2 ≠ ' ') p hp)

theorem lowerChar_b (c : Char) (h : lowerChar c = 'b') : c = 'b' ∨ c = 'B' := by
  rcases lowerChar_inv c 'b' h with h1 | ⟨p, hp, hpc, hp2⟩
  · exact Or.inl h1
  · exact Or.inr (hpc ▸ ((by decide : ∀ x ∈ upChars, x.2 = 'b' → x.1 = 'B') p hp hp2))

theorem lowerChar_y (c : Char) (h : lowerChar c = 'y') : c = 'y' ∨ c = 'Y' := by
  rcases lowerChar_inv c 'y' h with h1 | ⟨p, hp, hpc, hp2⟩
  · exact Or.inl h1
  · exact Or.inr (hpc ▸ ((by decide : ∀ x ∈ upChars, x.2 = 'y' → x.1 = 'Y') p hp hp2))

theorem stripByData_cons_pos (c : Char) (t : List Char)
    (hm : matchByAt (c :: t) = true) : stripByData (c :: t) = [] := by
  rw [stripByData, if_pos hm]

theorem stripByData_cons_neg (c : Char) (t : List Char)
    (hm : ¬ matchByAt (c :: t) = true) :
    stripByData (c :: t) = c :: stripByData t := by
  rw [stripByData, if_neg hm]

theorem stripData_len_le : ∀ l : List Char, (stripByData l).length ≤ l.length := by
  intro l
  induction l with
  | nil => simp [stripByData]
  | cons c t ih =>
    by_cases hm : matchByAt (c :: t) = true
    · rw [stripByData_cons_pos c t hm]
      simp
    · rw [stripByData_cons_neg c t hm]
      simp only [List.length_cons]
      exact Nat.succ_le_succ ih

theorem stripBy_decomp : ∀ l : List Char,
    ∃ rest, l = stripByData l ++ rest ∧ (rest = [] ∨ matchByAt rest = true) := by
  intro l
  induction l with
  | nil => exact ⟨[], rfl, Or.inl rfl⟩
  | cons c t ih =>
    by_cases hm : matchByAt (c :: t) = true
    · refine ⟨c :: t, ?_, Or.inr hm⟩
      rw [stripByData_cons_pos c t hm]
      rfl
    · obtain ⟨rest, h1, h2⟩ := ih
      refine ⟨rest, ?_, h2⟩
      rw [stripByData_cons_neg c t hm, List.cons_append, ← h1]

theorem matchByAt_len : ∀ l : List Char, matchByAt l = true → 4 ≤ l.length := by
  intro l h
  cases l with
  | nil => exact absurd h (by decide)
  | cons c t =>
    simp only [matchByAt, Bool.and_eq_true] at h
    obtain ⟨hws, hrest⟩ := h
    cases hd : (c :: t).dropWhile isWs with
    | nil => rw [hd] at hrest; exact Bool.noConfusion hrest
    | cons b rest1 =>
      cases rest1 with
      | nil => rw [hd] at hrest; exact Bool.noConfusion hrest
      | cons y rest2 =>
        cases rest2 with
        | nil => rw [hd] at hrest; exact Bool.noConfusion hrest
        | cons w tl =>
          have hlen : (c :: t).length
              = ((c :: t).takeWhile isWs).length + ((c :: t).dropWhile isWs).length := by
            rw [← List.length_append, List.takeWhile_append_dropWhile]
          have htw : 1 ≤ ((c :: t).takeWhile isWs).length := by
            rw [List.takeWhile_cons_of_pos hws]
            simp
          rw [hd] at hlen
          simp only [List.length_cons] at hlen ⊢
          omega

theorem isInfB_cons_eq (s : List Char) (hs : s ≠ []) (c : Char) (t : List Char) :
    isInfB s (c :: t) = (isPrefB s (c :: t) || isInfB s t) := by
  cases s with
  | nil => exact absurd rfl hs
  | cons a u => rfl

theorem hasBy_strip_lt : ∀ l : List Char,
    isInfB [' ', 'b', 'y', ' '] (l.map lowerChar) = true →
    (stripByData l).length < l.length := by
  intro l
  induction l with
  | nil => intro h; exact absurd h (by decide)
  | cons c t ih =>
    intro h
    by_cases hm : matchByAt (c :: t) = true
    · rw [stripByData_cons_pos c t hm]
      simp
    · have ht : isInfB [' ', 'b', 'y', ' '] (t.map lowerChar) = true := by
        rw [List.map_cons, isInfB_cons_eq _ (by decide)] at h
        rw [Bool.or_eq_true] at h
        rcases h with hpre | hinf
        · exfalso
          apply hm
          cases t with
          | nil => simp [isPrefB] at hpre
          | cons t1 tr1 =>
            cases tr1 with
            | nil => simp [isPrefB] at hpre
            | cons t2 tr2 =>
              cases tr2 with
              | nil => simp [isPrefB] at hpre
              | cons t3 rest =>
                simp only [List.map_cons, isPrefB, Bool.and_eq_true,
                  beq_iff_eq] at hpre
                obtain ⟨h1, h2, h3, h4, _⟩ := hpre
                have hc : c = ' ' := lowerChar_sp c h1.symm
                have hb : t1 = 'b' ∨ t1 = 'B' := lowerChar_b t1 h2.symm
                have hy : t2 = 'y' ∨ t2 = 'Y' := lowerChar_y t2 h3.symm
                have h3c : t3 = ' ' := lowerChar_sp t3 h4.symm
                subst hc
                subst h3c
                have hnw : isWs t1 = false := by
                  rcases hb with rfl | rfl <;> decide
                have hd : List.dropWhile isWs (' ' :: t1 :: t2 :: ' ' :: rest)
                    = t1 :: t2 :: ' ' :: rest := by
                  rw [List.dropWhile_cons_of_pos (by decide),
                    List.dropWhile_cons_of_neg (by simp [hnw])]
                have heq : matchByAt (' ' :: t1 :: t2 :: ' ' :: rest)
                    = (isWs ' ' &&
                       (match List.dropWhile isWs (' ' :: t1 :: t2 :: ' ' :: rest) with
                        | b :: y :: w :: _ =>
                          (b == 'b' || b == 'B') && (y == 'y' || y == 'Y') && isWs w
                        | _ => false)) := rfl
                rw [heq, hd]
                show (isWs ' ' &&
                  ((t1 == 'b' || t1 == 'B') && (t2 == 'y' || t2 == 'Y') && isWs ' ')) = true
                rcases hb with rfl | rfl <;> rcases hy with rfl | rfl <;> decide
        · exact hinf
      rw [stripByData_cons_neg c t hm]
      simp only [List.length_cons]
      exact Nat.succ_lt_succ (ih ht)

theorem sp_len : (" " : String).data.length = 1 := by decide

theorem hotel_len : (" hotel" : String).data.length = 6 := by decide

theorem kwq_len (q kw : String) :
    (q ++ " " ++ kw).data.length = q.data.length + 1 + kw.data.length := by
  rw [String.data_append, String.data_append, List.length_append, List.length_append, sp_len]

theorem sqh_len (q : String) :
    (stripBy q ++ " hotel").data.length = (stripBy q).data.length + 6 := by
  rw [String.data_append, List.length_append, hotel_len]

theorem sqh_ne_q (q : String) : stripBy q ++ " hotel" ≠ q := by
  intro h
  obtain ⟨rest, hqd, hcase⟩ := stripBy_decomp q.data
  have hd : (stripBy q).data ++ (" hotel" : String).data = q.data := by
    have h2 := congrArg String.data h
    rw [String.data_append] at h2
    exact h2
  have hd2 : (stripBy q).data ++ (" hotel" : String).data
      = (stripBy q).data ++ rest := hd.trans hqd
  have hrest : (" hotel" : String).data = rest := List.append_cancel_left hd2
  rcases hcase with hnil | hmat
  · rw [hnil] at hrest
    exact absurd hrest (by decide)
  · rw [← hrest] at hmat
    exact absurd hmat (by decide)

theorem strip_add4 (q : String) (h : hasByPattern q = true) :
    (stripBy q).data.length + 4 ≤ q.data.length := by
  obtain ⟨rest, hqd, hcase⟩ := stripBy_decomp q.data
  have hlt : (stripByData q.data).length < q.data.length := hasBy_strip_lt q.data h
  rcases hcase with hnil | hmat
  · rw [hnil, List.append_nil] at hqd
    rw [← hqd] at hlt
    exact absurd hlt (lt_irrefl _)
  · have h4 := matchByAt_len rest hmat
    have hql : q.data.length = (stripByData q.data).length + rest.length := by
      have h5 := congrArg List.length hqd
      rw [List.length_append] at h5
      exact h5
    have hsl : (stripBy q).data.length = (stripByData q.data).length := rfl
    omega

theorem tier_counts (q : String) :
    (tierQueries q).count q ≤ 1
    ∧ (tierQueries q).count (stripBy q) ≤ 1
    ∧ (tierQueries q).count (stripBy q ++ " hotel") ≤ 1 := by
  have hkw2 : ∀ kw ∈ travelKeywords, 2 ≤ kw.data.length := by decide
  have hsl : (stripBy q).data.length ≤ q.data.length := stripData_len_le q.data
  have hkwq_q : (travelKeywords.map (fun kw => q ++ " " ++ kw)).count q = 0 := by
    refine List.count_eq_zero.mpr ?_
    intro hmem
    obtain ⟨kw, hkw, heq⟩ := List.mem_map.mp hmem
    have hlen : (q ++ " " ++ kw).data.length = q.data.length :=
      congrArg (fun s : String => s.data.length) heq
    rw [kwq_len] at hlen
    omega
  have hkwq_sq :
      (travelKeywords.map (fun kw => q ++ " " ++ kw)).count (stripBy q) = 0 := by
    refine List.count_eq_zero.mpr ?_
    intro hmem
    obtain ⟨kw, hkw, heq⟩ := List.mem_map.mp hmem
    have hlen : (q ++ " " ++ kw).data.length = (stripBy q).data.length :=
      congrArg (fun s : String => s.data.length) heq
    rw [kwq_len] at hlen
    omega
  have hkwq_sqh :
      (travelKeywords.map (fun kw => q ++ " " ++ kw)).count (stripBy q ++ " hotel") = 0 := by
    refine List.count_eq_zero.mpr ?_
    intro hmem
    obtain ⟨kw, hkw, heq⟩ := List.mem_map.mp hmem
    obtain ⟨rest, hqd, hcase⟩ := stripBy_decomp q.data
    rcases hcase with hnil | hmat
    · rw [hnil, List.append_nil] at hqd
      have hsd : (stripBy q).data = q.data := hqd.symm
      have hdata : (q ++ " " ++ kw).data = (stripBy q ++ " hotel").data :=
        congrArg String.data heq
      rw [String.data_append, String.data_append, String.data_append, hsd,
        List.append_assoc] at hdata
      have hc := List.append_cancel_left hdata
      have hsp : (" " : String).data = [' '] := by decide
      have hh : (" hotel" : String).data = ' ' :: ("hotel" : String).data := by decide
      rw [hsp, hh, List.singleton_append] at hc
      have hkwd : kw.data = ("hotel" : String).data := by
        injection hc
      exact absurd hkwd
        ((by decide : ∀ x ∈ travelKeywords, ¬ x.data = ("hotel" : String).data) kw hkw)
    · have h4 := matchByAt_len rest hmat
      have hql : q.data.length = (stripByData q.data).length + rest.length := by
        have h5 := congrArg List.length hqd
        rw [List.length_append] at h5
        exact h5
      have hlen : (q ++ " " ++ kw).data.length = (stripBy q ++ " hotel").data.length :=
        congrArg (fun s : String => s.data.length) heq
      rw [kwq_len, sqh_len] at hlen
      have h2 := hkw2 kw hkw
      have hsl2 : (stripBy q).data.length = (stripByData q.data).length := rfl
      omega
  by_cases hby : hasByPattern q = true
  · have hTQ : tierQueries q
        = q :: stripBy q :: (stripBy q ++ " hotel")
            :: travelKeywords.map (fun kw => q ++ " " ++ kw) := by
      unfold tierQueries
      rw [if_pos hby]
      rfl
    have h4 := strip_add4 q hby
    have hq_sq : ¬ (stripBy q = q) := by
      intro he
      have hl : (stripBy q).data.length = q.data.length :=
        congrArg (fun s : String => s.data.length) he
      omega
    have hq_sq' : ¬ (q = stripBy q) := fun he => hq_sq he.symm
    have hq_sqh : ¬ (stripBy q ++ " hotel" = q) := sqh_ne_q q
    have hq_sqh' : ¬ (q = stripBy q ++ " hotel") := fun he => hq_sqh he.symm
    have hsq_sqh : ¬ (stripBy q ++ " hotel" = stripBy q) := by
      intro he
      have hl : (stripBy q ++ " hotel").data.length = (stripBy q).data.length :=
        congrArg (fun s : String => s.data.length) he
      rw [sqh_len] at hl
      omega
    have hsq_sqh' : ¬ (stripBy q = stripBy q ++ " hotel") := fun he => hsq_sqh he.symm
    refine ⟨?_, ?_, ?_⟩
    · rw [hTQ]
      simp [List.count_cons, hkwq_q, hq_sq, hq_sqh]
    · rw [hTQ]
      simp [List.count_cons, hkwq_sq, hq_sq', hsq_sqh]
    · rw [hTQ]
      simp [List.count_cons, hkwq_sqh, hq_sqh', hsq_sqh']
  · have hTQ : tierQueries q
        = q :: travelKeywords.map (fun kw => q ++ " " ++ kw) := by
      unfold tierQueries
      rw [if_neg hby]
      rfl
    have hq_sqh' : ¬ (q = stripBy q ++ " hotel") := fun he => sqh_ne_q q he.symm
    refine ⟨?_, ?_, ?_⟩
    · rw [hTQ]
      simp [List.count_cons, hkwq_q]
    · rw [hTQ]
      simp only [List.count_cons, hkwq_sq]
      split <;> omega
    · rw [hTQ]
      simp [List.count_cons, hkwq_sqh, hq_sqh']

/-- C6: image resolution is exactly a first-success scan of the ordered
tier-query list (raw query; if a " by ..." suffix is present, the stripped
query and then the stripped query plus " hotel"; then the query combined
with each travel keyword in turn): each query is attempted only when every
earlier one returned nothing; if every tier fails the result is null and
every tier query was attempted; on success the attempts form a prefix of
the tier list ending in the successful query, all earlier attempts having
failed; and the tier 1-3 queries each appear at most once among the
attempts. -/
theorem claim_c6_tier_order (try0 : String → Option String) (q : String) :
    fetchNaverImageRun try0 true q = firstHitRun try0 (tierQueries q)
    ∧ ((fetchNaverImageRun try0 true q).1 = none →
        (fetchNaverImageRun try0 true q).2 = tierQueries q
          ∧ ∀ x ∈ tierQueries q, try0 x = none)
    ∧ (∀ r, (fetchNaverImageRun try0 true q).1 = some r →
        ∃ pre x, (fetchNaverImageRun try0 true q).2 = pre ++ [x]
          ∧ try0 x = some r ∧ (∀ y ∈ pre, try0 y = none)
          ∧ ∃ k, pre ++ [x] = (tierQueries q).take k)
    ∧ (fetchNaverImageRun try0 true q).2.count q ≤ 1
    ∧ (fetchNaverImageRun try0 true q).2.count (stripBy q) ≤ 1
    ∧ (fetchNaverImageRun try0 true q).2.count (stripBy q ++ " hotel") ≤ 1 := by
  have hfe := fni_eq_firstHit try0 q
  obtain ⟨k, hk⟩ := fhr_take try0 (tierQueries q)
  have hcnt := tier_counts q
  refine ⟨hfe, ?_, ?_, ?_, ?_, ?_⟩
  · intro h0
    rw [hfe] at h0 ⊢
    exact fhr_none try0 (tierQueries q) h0
  · intro r hr
    rw [hfe] at hr ⊢
    obtain ⟨pre, x, h1, h2, h3⟩ := fhr_some try0 (tierQueries q) r hr
    exact ⟨pre, x, h1, h2, h3, k, by rw [← h1, hk]⟩
  · rw [hfe, hk]
    exact le_trans ((List.take_sublist k (tierQueries q)).count_le q) hcnt.1
  · rw [hfe, hk]
    exact le_trans ((List.take_sublist k (tierQueries q)).count_le (stripBy q)) hcnt.2.1
  · rw [hfe, hk]
    exact le_trans
      ((List.take_sublist k (tierQueries q)).count_le (stripBy q ++ " hotel")) hcnt.2.2

theorem claim_c6_witness :
    ∃ pre x,
      (fetchNaverImageRun
          (fun s => if s = "강릉 호텔" then some "http://img" else none) true "강릉").2
        = pre ++ [x]
      ∧ (fun s : String => if s = "강릉 호텔" then some "http://img" else none) x
          = some "http://img"
      ∧ (∀ y ∈ pre,
          (fun s : String => if s = "강릉 호텔" then some "http://img" else none) y = none)
      ∧ ∃ k, pre ++ [x] = (tierQueries "강릉").take k :=
  (claim_c6_tier_order
      (fun s => if s = "강릉 호텔" then some "http://img" else none) "강릉").2.2.1
    "http://img" (by decide)
